import Mathlib

/-!
Verification of the Storyboard intelligent-analysis pipeline
(`backend/app/services/`): a shallow embedding of the orchestrator
(`StoryAnalyzer.analyze_and_enhance`) and the stages it sequences
(`EmotionalIntensityScorer`, `IntelligentEffectSelector`,
`EffectQualityController`, `EffectSparsityController`), together with
theorems about order preservation, effect-count bounds, sparsity spacing,
quality idempotence, theme voting and the fallback contract.

Modelling conventions:
* Python floats are embedded as `Rat` (all constants in the code are small
  decimals; no claim depends on binary floating-point rounding).
* Python dicts holding segments/chapters are embedded as structures whose
  fields carry `Option`/default values mirroring each `dict.get(key, default)`
  in the code; keys the pipeline writes but never reads again
  (`chapter_emotional_profile`, `quality_metadata`, `sparsity_metadata`,
  `effect_distribution`, `character_effect_usage`) are omitted.
* The `random.random() <= 0.3` draw inside `_should_apply_effects` is
  modelled by an oracle `coin : Nat -> Bool` consulted once per draw, so
  every theorem quantifies over all random outcomes.
* `StoryStructureAnalyzer`'s output and `CharacterEmotionAnalyzer`'s inner
  analysis result are parameters of the orchestrator embedding (the claims
  under verification quantify over them); the `except` boundary of
  `analyze_character_arcs` (fallback "narrator" profile map) is embedded
  explicitly.
-/

/-! ### Python-semantics helpers -/

/-- Python `pat in s` substring test. -/
def strContains (s pat : String) : Bool :=
  s.data.tails.any (fun t => pat.data.isPrefixOf t)

/-- Python `str.split()` with no argument: split on whitespace runs,
dropping empty pieces. -/
def pySplit (s : String) : List String :=
  (s.split Char.isWhitespace).filter (fun w => w ≠ "")

/-- Number of keywords from `kws` occurring as substrings of `tl`
(Python `sum(1 for w in kws if w in tl)`). -/
def countKw (kws : List String) (tl : String) : Nat :=
  kws.countP (fun w => strContains tl w)

/-- Python `max(l, key=key)`: first element attaining the maximal key
(`max` replaces the running best only on a strictly greater key). -/
def pyMaxByKey {α : Type} {β : Type} [LinearOrder β] (key : α → β) :
    List α → Option α
  | [] => none
  | x :: xs => some (xs.foldl (fun b y => if key b < key y then y else b) x)

/-- One step of a stable descending insertion sort: `x` is placed before the
first element with key `≤ key x` (so elements equal in key keep their
original relative order, exactly like Python's stable `sort(reverse=True)`). -/
def insertDesc {α : Type} (key : α → Rat) (x : α) : List α → List α
  | [] => [x]
  | y :: ys => if key x < key y then y :: insertDesc key x ys else x :: y :: ys

/-- Stable descending sort by key: behaviourally equal to Python
`list.sort(key=key, reverse=True)`. -/
def pySortDesc {α : Type} (key : α → Rat) : List α → List α
  | [] => []
  | x :: xs => insertDesc key x (pySortDesc key xs)

/-- One step of a stable ascending insertion sort: `x` (originally before
every element of the sorted tail) is placed before the first element whose
key is `≥ key x`. -/
def insertAsc {α : Type} (key : α → Nat) (x : α) : List α → List α
  | [] => [x]
  | y :: ys => if key x ≤ key y then x :: y :: ys else y :: insertAsc key x ys

/-- Stable ascending sort by key: behaviourally equal to Python
`list.sort(key=key)`. -/
def pySortAsc {α : Type} (key : α → Nat) : List α → List α
  | [] => []
  | x :: xs => insertAsc key x (pySortAsc key xs)

/-- First occurrences of each value, in order (insertion order of the keys of
a Python dict built by repeated insertion). -/
def dedupFirst {α : Type} [DecidableEq α] : List α → List α
  | [] => []
  | x :: xs => x :: dedupFirst (xs.filter (fun y => y ≠ x))
termination_by l => l.length
decreasing_by simp_wf; exact Nat.lt_succ_of_le (List.length_filter_le _ _)

/-- Split a flat list back into chapters of the given lengths; the last
chapter takes the whole remainder (mirrors the boundary-slicing
reconstruction in `_enforce_global_spacing`). -/
def splitByLens {α : Type} : List Nat → List α → List (List α)
  | [], _ => []
  | [_], l => [l]
  | n :: ns, l => l.take n :: splitByLens ns (l.drop n)

/-- Python `int(q)` for the non-negative quantities appearing in the code
(truncation towards zero = floor there). -/
def pyIntFloor (q : Rat) : Nat :=
  q.floor.toNat

/-- Python `a or b` on strings: first truthy (non-empty) operand. -/
def pyOrStr (a b : String) : String :=
  if a = "" then b else a

/-! ### Data model -/

/-- Result of `EmotionalIntensityScorer.get_emotional_context`. -/
structure EmoContext where
  primary_emotion : String := "neutral"
  emotional_complexity : Rat := 0
  intensity_level : String := "low"
  context_type : String := "narrative"
  emotional_keywords : List String := []
  narrative_function : String := "description"
deriving DecidableEq

/-- An effect dict as constructed by `IntelligentEffectSelector`.
Fields are `Option`s mirroring keys that are present only for some effect
kinds; `intensity` is always written by the selector. -/
structure Effect where
  type : String
  style : Option String := none
  effect : Option String := none
  sound : Option String := none
  word : Option String := none
  character : Option String := none
  intensity : Rat := 1/2
  volume : Option Rat := none
deriving DecidableEq

/-- `effect.get('style') or effect.get('effect') or effect.get('sound', '')`
(quality controller and statistics). -/
def effectName (e : Effect) : String :=
  pyOrStr (e.style.getD "") (pyOrStr (e.effect.getD "") (e.sound.getD ""))

/-- A content segment dict as it flows through the pipeline.  The parser
emits only `type` and `text`; the default values of the remaining fields
mirror the corresponding `dict.get(key, default)` calls in the stages
(`effects` -> `[]`, `emotional_score` -> `0.0`, `position` -> absent). -/
structure Item where
  type : String := "paragraph"
  text : String := ""
  emotional_score : Rat := 0
  emotional_context : EmoContext := {}
  character_relevance : List (String × Rat) := []
  effects : List Effect := []
  quality_score : Rat := 0
  position : Option Nat := none
deriving DecidableEq

/-- Python truthiness of `item.get('effects', [])`. -/
def hasEffects (it : Item) : Bool :=
  !it.effects.isEmpty

/-- A chapter dict inside the pipeline.  Parser chapters carry only `title`
and `content`; no pipeline stage ever writes `bookTitle` or
`structural_role`, so those keys stay absent (`none`). -/
structure ChapterD where
  title : String := ""
  bookTitle : Option String := none
  structural_role : Option String := none
  content : List Item := []
deriving DecidableEq

/-- Parser output segment (`_parse_chapter` emits `{'type', 'text'}`). -/
structure PItem where
  type : String := "paragraph"
  text : String := ""
deriving DecidableEq

/-- Parser output chapter (`_parse_chapter` emits `{'title', 'content'}`). -/
structure PChapter where
  title : String := ""
  content : List PItem := []
deriving DecidableEq

/-- The `ParsedBook` input of the pipeline (the orchestrator reads only
`title` and `chapters`). -/
structure ParsedBook where
  title : String := "Unknown"
  chapters : List PChapter := []
deriving DecidableEq

/-- The slice of a `CharacterProfile` read downstream of the character
stage: `profile['emotional_signature']['primary_emotion']` (with `'neutral'`
as the `.get` default). -/
structure Profile where
  primary_emotion : Option String := none
deriving DecidableEq

/-- Character profile map, insertion-ordered like a Python dict. -/
abbrev Profiles : Type := List (String × Profile)

/-- `_create_fallback_character_profiles`: single-entry map keyed
`'narrator'` with a neutral emotional signature. -/
def fallback_character_profiles : Profiles :=
  [("narrator", { primary_emotion := some "neutral" })]

/-- A story beat / tension point record as produced by
`StoryStructureAnalyzer` (`chapter`/`position` are list indices, hence
natural numbers). -/
structure Beat where
  chapter : Nat
  position : Nat
deriving DecidableEq

/-- The slice of `analyze_narrative_structure`'s output read by the emotion
scorer. -/
structure StructureData where
  story_beats : List Beat := []
  tension_points : List Beat := []
deriving DecidableEq

/-- History entry appended by `_apply_intelligent_effects` for each segment
that received effects.  As a non-empty dict it is always truthy in the
selector's `[e for e in effect_history[-10:] if e]` comprehension. -/
structure HistEntry where
  chapter : Nat
  position : Nat
  effects : List Effect
deriving DecidableEq

/-- `analysis_metadata`: the success path writes `total_effects_applied`
(the two distribution reports are write-only and omitted); the fallback path
writes `status`/`error` instead. -/
structure AnalysisMetadata where
  status : Option String := none
  error : Option String := none
  total_effects_applied : Option Nat := none
deriving DecidableEq

/-- The markup dict produced by `_apply_intelligent_effects` and threaded
through the quality controller (write-only `quality_metadata` omitted). -/
structure Markup where
  bookTitle : String
  theme : String
  chapters : List ChapterD
  analysis_metadata : AnalysisMetadata
deriving DecidableEq

/-- A chapter of the final output: the sparsity controller replaces each
chapter dict by a bare list of segments, while the fallback markup emits
`{'chapterTitle', 'content'}` dicts. -/
inductive OutChapter where
  | bare (content : List Item)
  | titled (chapterTitle : String) (content : List Item)
deriving DecidableEq

/-- Segments of an output chapter. -/
def OutChapter.contentOf : OutChapter → List Item
  | .bare c => c
  | .titled _ c => c

/-- The final `CinematicMarkup` value returned by `analyze_and_enhance`. -/
structure SMarkup where
  bookTitle : String
  theme : String
  chapters : List OutChapter
  analysis_metadata : AnalysisMetadata
deriving DecidableEq

/-! ### EmotionalIntensityScorer (`emotion_scorer.py`) -/

/-- `self.emotion_keywords['high_intensity']`. -/
def emotion_high_intensity : List String :=
  ["rage", "fury", "terror", "ecstasy", "despair", "passion", "hatred",
   "love", "joy", "grief", "panic", "wonder", "shock", "amazement"]

/-- `self.emotion_keywords['medium_intensity']`. -/
def emotion_medium_intensity : List String :=
  ["angry", "sad", "happy", "afraid", "excited", "worried", "surprised",
   "confused", "annoyed", "pleased", "disappointed", "relieved"]

/-- `self.emotion_keywords['low_intensity']`. -/
def emotion_low_intensity : List String :=
  ["slightly", "somewhat", "a bit", "kind of", "sort of", "maybe",
   "perhaps", "possibly", "gently", "softly", "quietly"]

/-- `self.emotion_keywords` as the ordered dict of its three tiers. -/
def emotion_keywords_tiers : List (String × List String) :=
  [("high_intensity", emotion_high_intensity),
   ("medium_intensity", emotion_medium_intensity),
   ("low_intensity", emotion_low_intensity)]

/-- `self.context_indicators` (ordered as declared). -/
def context_indicators : List (String × List String) :=
  [("climactic", ["suddenly", "finally", "at last", "moment", "turning point"]),
   ("reflective", ["thought", "realized", "understood", "remembered", "considered"]),
   ("action", ["ran", "jumped", "fought", "moved", "entered", "left", "grabbed"]),
   ("dialogue", ["said", "asked", "replied", "whispered", "shouted", "muttered"]),
   ("sensory", ["saw", "heard", "felt", "smelled", "tasted", "touched"])]

/-- Keyword family for one `context_indicators` entry. -/
def contextIndicatorsFor (k : String) : List String :=
  (context_indicators.lookup k).getD []

/-- `_analyze_dialogue_emotion`. -/
def analyze_dialogue_emotion (text : String) : Rat :=
  if text = "" then 0
  else
    let tl := text.toLower
    let has_dialogue :=
      strContains text "\"" || strContains text "“" || strContains text "”"
    if !has_dialogue then 1/10
    else
      let high := countKw emotion_high_intensity tl
      let med := countKw emotion_medium_intensity tl
      let ints := countKw ["shouted", "whispered", "cried", "laughed", "screamed", "muttered"] tl
      let score : Rat := high * (3/10) + med * (2/10) + ints * (15/100)
      let wc := (pySplit text).length
      if 0 < wc then score / wc else 0

/-- `_measure_action_pacing`. -/
def measure_action_pacing (text : String) : Rat :=
  if text = "" then 0
  else
    let tl := text.toLower
    let action := countKw
      ["ran", "jumped", "fought", "moved", "entered", "left", "grabbed", "pushed",
       "pulled", "threw", "caught", "escaped", "chased", "attacked", "defended"] tl
    let urgency := countKw ["suddenly", "quickly", "rapidly", "immediately", "instantly", "urgently"] tl
    let pacing := countKw ["finally", "at last", "moment", "turning point", "climax"] tl
    let wc := (pySplit text).length
    if 0 < wc then ((action + urgency + pacing : Nat) : Rat) / wc else 0

/-- `_assess_sensory_language`. -/
def assess_sensory_language (text : String) : Rat :=
  if text = "" then 0
  else
    let tl := text.toLower
    let sensory :=
      countKw ["saw", "looked", "watched", "observed", "noticed", "appeared", "seemed"] tl
      + countKw ["heard", "listened", "sounded", "echoed", "whispered", "shouted"] tl
      + countKw ["felt", "touched", "grasped", "held", "pressed", "squeezed"] tl
      + countKw ["smelled", "scented", "aroma", "fragrance", "odor", "stench"] tl
      + countKw ["tasted", "flavor", "sweet", "bitter", "sour", "spicy"] tl
    let richness := countKw ["vivid", "bright", "loud", "soft", "sharp", "smooth", "rough"] tl
    let wc := (pySplit text).length
    if 0 < wc then ((sensory + richness : Nat) : Rat) / wc else 0

/-- `_evaluate_conflict_intensity`. -/
def evaluate_conflict_intensity (text : String) : Rat :=
  if text = "" then 0
  else
    let tl := text.toLower
    let conflict := countKw
      ["fight", "battle", "conflict", "argument", "dispute", "disagreement",
       "struggle", "war", "attack", "defend", "resist", "oppose", "challenge"] tl
    let emotional := countKw
      ["hate", "anger", "rage", "fury", "resentment", "jealousy", "envy",
       "betrayal", "deception", "lies", "secrets", "mistrust"] tl
    let physical := countKw
      ["punch", "kick", "hit", "strike", "wound", "injury", "blood", "pain"] tl
    let total : Rat := conflict * (4/10) + emotional * (4/10) + physical * (2/10)
    let wc := (pySplit text).length
    if 0 < wc then total / wc else 0

/-- `_assess_character_openness`. -/
def assess_character_openness (text : String) (character_profiles : Profiles) : Rat :=
  if text = "" || character_profiles.isEmpty then 0
  else
    let tl := text.toLower
    let vulnerability := countKw
      ["confessed", "admitted", "revealed", "told", "shared", "opened up",
       "trusted", "believed", "hoped", "feared", "worried", "doubted"] tl
    let charVuln : Rat := character_profiles.foldl
      (fun acc cp =>
        if strContains tl cp.1.toLower then
          if ["fear", "sadness", "love", "trust"].contains (cp.2.primary_emotion.getD "neutral")
          then acc + 3/10 else acc
        else acc) 0
    let wc := (pySplit text).length
    let base : Rat := if 0 < wc then (vulnerability : Rat) / wc else 0
    min 1 (base + charVuln)

/-- `content_item.get('chapter', -1)`: content segments never carry a
`chapter` key (the parser emits only `type`/`text`, and scoring adds only
`emotional_score`/`emotional_context`/`character_relevance`), so the `.get`
default `-1` always applies. -/
def itemChapterKey (_it : PItem) : Int := -1

/-- `content_item.get('position', -1)` (same situation as `itemChapterKey`). -/
def itemPositionKey (_it : PItem) : Int := -1

/-- `_calculate_narrative_context_weight`: multiply by 1.5 when some story
beat matches the segment's (chapter, position) keys and additionally by 1.3
on a tension-point match.  Since the segment keys default to `-1` and the
structural analyzer records non-negative indices, the multipliers are dead
in the real pipeline; the comparison is embedded as written. -/
def calculate_narrative_context_weight (it : PItem) (sd : StructureData) : Rat :=
  let w : Rat := 1
  let w := if sd.story_beats.any
      (fun b => (b.chapter : Int) == itemChapterKey it && (b.position : Int) == itemPositionKey it)
    then w * (3/2) else w
  if sd.tension_points.any
      (fun t => (t.chapter : Int) == itemChapterKey it && (t.position : Int) == itemPositionKey it)
  then w * (13/10) else w

/-- `calculate_emotional_weight`: weighted factor sum times the narrative
context weight, clamped to [0, 1]. -/
def calculate_emotional_weight (it : PItem) (sd : StructureData)
    (character_profiles : Profiles) : Rat :=
  if it.text.trim = "" then 0
  else
    let cw := calculate_narrative_context_weight it sd
    let s : Rat :=
      analyze_dialogue_emotion it.text * (3/10) * cw
      + measure_action_pacing it.text * (25/100) * cw
      + assess_sensory_language it.text * (2/10) * cw
      + evaluate_conflict_intensity it.text * (15/100) * cw
      + assess_character_openness it.text character_profiles * (1/10) * cw
    min 1 (max 0 s)

/-- The scorer's local emotion taxonomy in `_identify_primary_emotion`
(declaration order is the tie-break order). -/
def scorer_emotions : List (String × List String) :=
  [("joy", ["happy", "joy", "delighted", "excited", "cheerful", "laugh", "smile"]),
   ("sadness", ["sad", "depressed", "melancholy", "grief", "sorrow", "tears"]),
   ("anger", ["angry", "furious", "rage", "hate", "hostile", "aggressive"]),
   ("fear", ["afraid", "fear", "terrified", "scared", "anxious", "worried"]),
   ("love", ["love", "adore", "passion", "affection", "tender", "romantic"]),
   ("surprise", ["surprised", "shocked", "amazed", "astonished", "stunned"]),
   ("disgust", ["disgusted", "revolted", "sickened", "repulsed"]),
   ("trust", ["trust", "faith", "confidence", "belief", "reliable"])]

/-- `_identify_primary_emotion`. -/
def identify_primary_emotion (text : String) : String :=
  if text = "" then "neutral"
  else
    let tl := text.toLower
    let scores := scorer_emotions.map (fun p => (p.1, countKw p.2 tl))
    match pyMaxByKey (fun p => p.2) scores with
    | some p => if 0 < p.2 then p.1 else "neutral"
    | none => "neutral"

/-- `_calculate_emotional_complexity`: fraction of the three keyword tiers
with at least one hit. -/
def calculate_emotional_complexity (text : String) : Rat :=
  if text = "" then 0
  else
    let tl := text.toLower
    let cats := emotion_keywords_tiers.countP (fun p => p.2.any (fun w => strContains tl w))
    (cats : Rat) / 3

/-- `_classify_intensity_level`. -/
def classify_intensity_level (text : String) : String :=
  if text = "" then "low"
  else
    let tl := text.toLower
    if 0 < countKw emotion_high_intensity tl then "high"
    else if 0 < countKw emotion_medium_intensity tl then "medium"
    else if 0 < countKw emotion_low_intensity tl then "low"
    else "neutral"

/-- `_classify_context_type`: first matching indicator family in declaration
order. -/
def classify_context_type (text : String) : String :=
  if text = "" then "narrative"
  else
    let tl := text.toLower
    match context_indicators.find? (fun p => p.2.any (fun w => strContains tl w)) with
    | some p => p.1
    | none => "narrative"

/-- `_extract_emotional_keywords`. -/
def extract_emotional_keywords (text : String) : List String :=
  if text = "" then []
  else
    let tl := text.toLower
    emotion_keywords_tiers.flatMap (fun p => p.2.filter (fun w => strContains tl w))

/-- `_determine_narrative_function`. -/
def determine_narrative_function (text : String) : String :=
  if text = "" then "description"
  else
    let tl := text.toLower
    if (contextIndicatorsFor "dialogue").any (fun w => strContains tl w) then "dialogue"
    else if (contextIndicatorsFor "action").any (fun w => strContains tl w) then "action"
    else if (contextIndicatorsFor "reflective").any (fun w => strContains tl w) then "reflection"
    else if (contextIndicatorsFor "sensory").any (fun w => strContains tl w) then "sensory"
    else "description"

/-- `get_emotional_context` (its `try` body never raises on a typed
segment, so the neutral `except` result is unreachable). -/
def get_emotional_context (it : PItem) : EmoContext :=
  { primary_emotion := identify_primary_emotion it.text
    emotional_complexity := calculate_emotional_complexity it.text
    intensity_level := classify_intensity_level it.text
    context_type := classify_context_type it.text
    emotional_keywords := extract_emotional_keywords it.text
    narrative_function := determine_narrative_function it.text }

/-! ### IntelligentEffectSelector (`effect_selector.py`) -/

/-- One entry of `self.effect_library` (the `themes` key is present only on
`fantasy_glow`/`noir_shadow`; `config.get('themes', ['general'])` is
embedded as `themes.getD ["general"]`). -/
structure EffectConfig where
  triggers : List String := []
  intensity_threshold : Rat := 1/2
  character_types : List String := []
  contexts : List String := []
  themes : Option (List String) := none
  volume : Option Rat := none
deriving DecidableEq

/-- `self.effect_library['text_style']` (insertion order as declared). -/
def text_style_library : List (String × EffectConfig) :=
  [("fiery_sharp",
    { triggers := ["anger", "rage", "fury", "aggressive"], intensity_threshold := 6/10,
      character_types := ["aggressive", "hotheaded", "warrior"],
      contexts := ["conflict", "battle", "confrontation"] }),
   ("calm_gentle",
    { triggers := ["peace", "calm", "gentle", "tender"], intensity_threshold := 4/10,
      character_types := ["wise", "peaceful", "healer"],
      contexts := ["reflection", "healing", "reconciliation"] }),
   ("mysterious_shadow",
    { triggers := ["mystery", "secret", "hidden", "unknown"], intensity_threshold := 5/10,
      character_types := ["mysterious", "secretive", "wizard"],
      contexts := ["revelation", "discovery", "magic"] }),
   ("passionate_flame",
    { triggers := ["love", "passion", "desire", "romance"], intensity_threshold := 7/10,
      character_types := ["romantic", "passionate", "lover"],
      contexts := ["romance", "confession", "intimate"] }),
   ("fantasy_glow",
    { triggers := ["magic", "enchanted", "dragon", "mystic"], intensity_threshold := 5/10,
      character_types := ["wizard", "elf", "hero"],
      contexts := ["magic", "fantasy", "enchanted"], themes := some ["fantasy"] }),
   ("noir_shadow",
    { triggers := ["shadow", "smoke", "dark", "mystery"], intensity_threshold := 5/10,
      character_types := ["detective", "antihero", "criminal"],
      contexts := ["crime", "investigation", "night"], themes := some ["noir"] })]

/-- `self.effect_library['word_effect']`. -/
def word_effect_library : List (String × EffectConfig) :=
  [("burn",
    { triggers := ["hate", "rage", "fire", "burn"], intensity_threshold := 8/10,
      contexts := ["climax", "conflict", "transformation"] }),
   ("glow",
    { triggers := ["light", "hope", "magic", "divine"], intensity_threshold := 6/10,
      contexts := ["revelation", "magic", "divine"] }),
   ("sparkle",
    { triggers := ["joy", "wonder", "magic", "beautiful"], intensity_threshold := 5/10,
      contexts := ["joy", "wonder", "celebration"] })]

/-- `self.effect_library['sound']`. -/
def sound_library : List (String × EffectConfig) :=
  [("swords_clash",
    { triggers := ["fight", "battle", "sword", "clash"], intensity_threshold := 8/10,
      contexts := ["battle", "duel", "conflict"], volume := some (3/10) }),
   ("gentle_wind",
    { triggers := ["wind", "breeze", "peace", "calm"], intensity_threshold := 4/10,
      contexts := ["peace", "nature", "reflection"], volume := some (2/10) }),
   ("heartbeat",
    { triggers := ["heart", "fear", "tension", "anticipation"], intensity_threshold := 6/10,
      contexts := ["tension", "fear", "anticipation"], volume := some (25/100) })]

/-- `self.effect_library.get(effect_type, {})`. -/
def effectLibraryOf (effect_type : String) : List (String × EffectConfig) :=
  if effect_type = "text_style" then text_style_library
  else if effect_type = "word_effect" then word_effect_library
  else if effect_type = "sound" then sound_library
  else []

/-- `self.effect_tiers[tier]['effects']`. -/
def tierEffectNames (tier : String) : List String :=
  if tier = "TIER_1_MICRO" then ["calm_gentle", "gentle_wind"]
  else if tier = "TIER_2_MODERATE" then
    ["fiery_sharp", "mysterious_shadow", "glow", "sparkle", "fantasy_glow", "noir_shadow"]
  else if tier = "TIER_3_DRAMATIC" then
    ["passionate_flame", "burn", "swords_clash", "heartbeat"]
  else []

/-- `effect_history[-10:]` filtered by truthiness — every history entry is a
non-empty dict, hence truthy, so the comprehension keeps all of the last 10
entries. -/
def recent_effect_count (effect_history : List HistEntry) : Nat :=
  ((effect_history.drop (effect_history.length - 10)).filter (fun _ => true)).length

/-- `_should_apply_effects`, with the `random.random()` draw modelled by the
oracle `coin` at the current draw index `k` (`coin k = true` means the draw
landed `<= 0.3`, i.e. the 30%-acceptance branch).  Returns the decision and
the next draw index. -/
def should_apply_effects (coin : Nat → Bool) (k : Nat) (emotional_score : Rat)
    (effect_history : List HistEntry) : Bool × Nat :=
  if emotional_score < 1/2 then (false, k)
  else if 2 < recent_effect_count effect_history then (false, k)
  else if coin k then (true, k + 1) else (false, k + 1)

/-- `_determine_effect_tier`. -/
def determine_effect_tier (emotional_score : Rat) : String :=
  if 8/10 < emotional_score then "TIER_3_DRAMATIC"
  else if 6/10 < emotional_score then "TIER_2_MODERATE"
  else "TIER_1_MICRO"

/-- `_filter_effects_by_theme`: keep the names present in the library of the
given kind whose declared theme list (default `['general']`) contains the
book theme or `'general'`. -/
def filter_effects_by_theme (effect_names : List String) (effect_type : String)
    (book_theme : String) : List String :=
  effect_names.filter (fun name =>
    match (effectLibraryOf effect_type).lookup name with
    | none => false
    | some config =>
      let themes := config.themes.getD ["general"]
      themes.contains book_theme || themes.contains "general")

/-- `_effect_matches_context`: trigger OR emotion OR context match. -/
def effect_matches_context (config : EffectConfig) (primary_emotion : String)
    (_context_type : String) (text : String) : Bool :=
  let tl := text.toLower
  let trigger_matches := config.triggers.any (fun t => strContains tl t)
  let emotion_match := config.triggers.contains primary_emotion || primary_emotion == "neutral"
  let context_match := config.contexts.any (fun c => strContains tl c)
  trigger_matches || emotion_match || context_match

/-- `_calculate_effect_relevance`. -/
def calculate_effect_relevance (config : EffectConfig) (text : String) : Rat :=
  let tl := text.toLower
  (countKw config.triggers tl : Rat) * (3/10) + (countKw config.contexts tl : Rat) * (2/10)

/-- `_calculate_effect_intensity`. -/
def calculate_effect_intensity (config : EffectConfig) (text : String) : Rat :=
  let tl := text.toLower
  let trigger_count := countKw config.triggers tl
  min 1 (config.intensity_threshold + min (3/10) ((trigger_count : Rat) * (1/10)))

/-- `_identify_character_for_effect`: first profile key occurring in the
text (case-insensitive). -/
def identify_character_for_effect (text : String) (character_profiles : Profiles) :
    Option String :=
  (character_profiles.find? (fun cp => strContains text.toLower cp.1.toLower)).map (·.1)

/-- `_find_matching_words`: for each trigger present in the text, the first
whitespace-token containing it; at most 3 words. -/
def find_matching_words (triggers : List String) (text : String) : List String :=
  let tl := text.toLower
  ((triggers.filterMap (fun trigger =>
    if strContains tl trigger then
      (pySplit text).find? (fun w => strContains w.toLower trigger)
    else none)).take 3)

/-- `_select_text_style_effect`: among the available names whose config
matches the context, the one with the highest relevance (Python's stable
descending sort followed by `[0]` returns the first maximal element, i.e.
`pyMaxByKey`). -/
def select_text_style_effect (emotional_context : EmoContext)
    (character_profiles : Profiles) (text : String) (available_effects : List String) :
    Option Effect :=
  let matching := available_effects.filterMap (fun name =>
    match text_style_library.lookup name with
    | none => none
    | some config =>
      if effect_matches_context config emotional_context.primary_emotion
          emotional_context.context_type text
      then some (name, config) else none)
  match pyMaxByKey (fun p => calculate_effect_relevance p.2 text) matching with
  | none => none
  | some (name, config) =>
    some { type := "text_style", style := some name,
           intensity := calculate_effect_intensity config text,
           character := identify_character_for_effect text character_profiles }

/-- `_select_word_effects`: up to 2 word effects over the available names in
order. -/
def select_word_effects (emotional_context : EmoContext) (text : String)
    (available_effects : List String) : List Effect :=
  ((available_effects.flatMap (fun name =>
    match word_effect_library.lookup name with
    | none => []  -- unreachable: `available_effects` was filtered against this library
    | some config =>
      if effect_matches_context config emotional_context.primary_emotion "word" text then
        (find_matching_words config.triggers text).map (fun w =>
          { type := "word_effect", word := some w, effect := some name,
            intensity := calculate_effect_intensity config text })
      else [])).take 2)

/-- `_select_sound_effect`: the first available sound whose config matches. -/
def select_sound_effect (emotional_context : EmoContext) (text : String)
    (available_effects : List String) : Option Effect :=
  available_effects.findSome? (fun name =>
    match sound_library.lookup name with
    | none => none
    | some config =>
      if effect_matches_context config emotional_context.primary_emotion "sound" text then
        some { type := "sound", sound := some (name ++ ".mp3"),
               volume := some (config.volume.getD (3/10)),
               intensity := calculate_effect_intensity config text }
      else none)

/-- `select_appropriate_effects`: gate, tier selection, theme filtering,
per-kind selection, truncation to 3.  The orchestrator calls it without a
`book_theme` argument, so the Python default `'general'` applies there.
Returns the selected effects and the next random-draw index. -/
def select_appropriate_effects (coin : Nat → Bool) (k : Nat) (content_item : Item)
    (character_profiles : Profiles) (effect_history : List HistEntry)
    (book_theme : String) : List Effect × Nat :=
  match should_apply_effects coin k content_item.emotional_score effect_history with
  | (false, k') => ([], k')
  | (true, k') =>
    let effect_tier := determine_effect_tier content_item.emotional_score
    let tier_names := tierEffectNames effect_tier
    let text_style_options := filter_effects_by_theme tier_names "text_style" book_theme
    let word_effect_options := filter_effects_by_theme tier_names "word_effect" book_theme
    let sound_effect_options := filter_effects_by_theme tier_names "sound" book_theme
    let ectx := content_item.emotional_context
    let text := content_item.text
    let selected :=
      (match select_text_style_effect ectx character_profiles text text_style_options with
       | some e => [e]
       | none => [])
      ++ select_word_effects ectx text word_effect_options
      ++ (if 8/10 < content_item.emotional_score then
            match select_sound_effect ectx text sound_effect_options with
            | some e => [e]
            | none => []
          else [])
    (if 3 < selected.length then selected.take 3 else selected, k')

/-! ### EffectQualityController (`quality_controller.py`) -/

/-- `self.quality_thresholds['minimum_emotional_score']`. -/
def minimum_emotional_score : Rat := 1/2

/-- `self.quality_thresholds['maximum_effects_per_segment']`. -/
def maximum_effects_per_segment : Nat := 3

/-- `self.quality_thresholds['character_consistency_threshold']`. -/
def character_consistency_threshold : Rat := 7/10

/-- `self.inappropriate_combinations` (ordered pairs, as in the code). -/
def inappropriate_combinations : List (String × String) :=
  [("fiery_sharp", "calm_gentle"),
   ("swords_clash", "gentle_wind"),
   ("burn", "glow"),
   ("passionate_flame", "mysterious_shadow")]

/-- `self.context_violations` (insertion order as declared). -/
def context_violations : List (String × List String) :=
  [("romance", ["swords_clash", "burn", "fiery_sharp"]),
   ("peace", ["swords_clash", "burn", "heartbeat"]),
   ("reflection", ["swords_clash", "burn", "passionate_flame"]),
   ("dialogue", ["swords_clash"])]

/-- `_is_valid_effect_type`. -/
def is_valid_effect_type (effect_type : String) : Bool :=
  ["text_style", "word_effect", "sound"].contains effect_type

/-- `_is_context_appropriate`: no context violation (a context keyword in
the text while the effect name is on that context's forbidden list) and no
inappropriate pair with any *other* effect on the same segment (the scan
skips occurrences equal to the effect itself). -/
def is_context_appropriate (e : Effect) (content_item : Item) : Bool :=
  let text := content_item.text.toLower
  let nm := effectName e
  if context_violations.any (fun cv => strContains text cv.1 && cv.2.contains nm)
  then false
  else if content_item.effects.any (fun o =>
      o ≠ e && inappropriate_combinations.contains (nm, effectName o))
  then false
  else true

/-- `_is_character_consistent`: an effect naming a (truthy) character
requires that character's relevance score on the segment to reach the
threshold. -/
def is_character_consistent (e : Effect) (content_item : Item) : Bool :=
  let c := e.character.getD ""
  if c = "" then true
  else character_consistency_threshold ≤ (content_item.character_relevance.lookup c).getD 0

/-- `_is_effect_valid`: the conjunction of the four early-return checks, in
order. -/
def is_effect_valid (e : Effect) (content_item : Item) : Bool :=
  !(content_item.emotional_score < minimum_emotional_score)
  && is_valid_effect_type e.type
  && is_context_appropriate e content_item
  && is_character_consistent e content_item

/-- `_calculate_effect_quality_score`. -/
def calculate_effect_quality_score (e : Effect) (content_item : Item) : Rat :=
  let base := content_item.emotional_score * (4/10) + e.intensity * (3/10)
  let c := e.character.getD ""
  let withChar := if c ≠ "" then
      base + ((content_item.character_relevance.lookup c).getD 0) * (2/10)
    else base
  let withCtx := if is_context_appropriate e content_item then withChar + 1/10 else withChar
  min 1 withCtx

/-- `_remove_redundant_effects`: group by `type` (dict insertion order =
first occurrence order) and keep, per group, the single effect with the
highest intensity (Python `max` keeps the first maximal element; a
singleton group keeps its element). -/
def remove_redundant_effects (effects : List Effect) : List Effect :=
  if effects.length ≤ 1 then effects
  else
    (dedupFirst (effects.map (·.type))).filterMap (fun t =>
      pyMaxByKey (·.intensity) (effects.filter (fun e => e.type = t)))

/-- `_apply_quality_filters`: truncate to the top 3 by quality score (stable
descending sort, i.e. ties keep original order), then collapse same-kind
effects. -/
def apply_quality_filters (effects : List Effect) (content_item : Item) : List Effect :=
  if effects.isEmpty then []
  else
    let effects :=
      if maximum_effects_per_segment < effects.length then
        (pySortDesc (fun e => calculate_effect_quality_score e content_item) effects).take
          maximum_effects_per_segment
      else effects
    remove_redundant_effects effects

/-- `_validate_content_effects`. -/
def validate_content_effects (content_item : Item) : List Effect :=
  if content_item.effects.isEmpty then []
  else
    apply_quality_filters
      (content_item.effects.filter (fun e => is_effect_valid e content_item))
      content_item

/-- `_calculate_quality_score` (attached as segment metadata). -/
def calculate_quality_score (content_item : Item) (validated_effects : List Effect) : Rat :=
  if validated_effects.isEmpty then 0
  else
    let effect_scores := validated_effects.map (fun e => calculate_effect_quality_score e content_item)
    let avg := if effect_scores.isEmpty then 0 else effect_scores.sum / effect_scores.length
    let q := content_item.emotional_score * (5/10) + avg * (3/10)
    let q := if validated_effects.all (fun e => is_context_appropriate e content_item)
      then q + 2/10 else q
    min 1 q

/-- The per-segment action of `validate_all_effects`: replace `effects` by
the validated list and attach `quality_score`. -/
def qualityItem (content_item : Item) : Item :=
  let v := validate_content_effects content_item
  { content_item with effects := v, quality_score := calculate_quality_score content_item v }

/-- `validate_all_effects` (its `try` body is total on typed markup, so the
`except`-returns-input branch is unreachable; the write-only
`quality_metadata` report is omitted). -/
def validate_all_effects (enhanced_markup : Markup) : Markup :=
  { enhanced_markup with
    chapters := enhanced_markup.chapters.map (fun ch =>
      { ch with content := ch.content.map qualityItem }) }

/-! ### EffectSparsityController (`sparsity_controller.py`) -/

/-- `self.sparsity_rules['global_effect_density']`. -/
def global_effect_density : Rat := 2/100

/-- `self.sparsity_rules['chapter_effect_limit']`. -/
def chapter_effect_limit : Rat := 5/100

/-- `self.sparsity_rules['minimum_effect_spacing']`. -/
def minimum_effect_spacing : Nat := 8

/-- `self.sparsity_rules['maximum_consecutive_effects']`. -/
def maximum_consecutive_effects : Nat := 2

/-- `self.chapter_type_multipliers`. -/
def chapter_type_multipliers : List (String × Rat) :=
  [("exposition", 3/10), ("setup", 1/2), ("rising_action", 8/10),
   ("climax", 3/2), ("resolution", 7/10)]

/-- `_determine_chapter_type`: a truthy `structural_role` wins (no pipeline
stage ever writes that key); otherwise classify by the content's average
emotional score. -/
def determine_chapter_type (chapter : ChapterD) : String :=
  let role := chapter.structural_role.getD ""
  if role ≠ "" then role
  else if chapter.content.isEmpty then "exposition"
  else
    let avg : Rat :=
      (chapter.content.map (·.emotional_score)).sum / chapter.content.length
    if 7/10 < avg then "climax"
    else if 1/2 < avg then "rising_action"
    else if 3/10 < avg then "setup"
    else "exposition"

/-- `_apply_chapter_sparsity`: partition the chapter's segments into
effect-bearing and effect-free; when over the chapter limit, rank the
effect-bearing ones by emotional score (stable descending) and clear the
effects of the excess; concatenate `kept ++ (effect-free ++ cleared)` and
finally re-sort by `item.get('position', 0)` — a key no segment carries, so
every sort key is 0 and the stable sort keeps the concatenation order.
Returns the controlled content and the removed-effect count.  (The
`global_target` parameter is unused, exactly as in the code.) -/
def apply_chapter_sparsity (chapter : ChapterD) (_global_target : Nat) :
    List Item × Nat :=
  let content := chapter.content
  let chapter_type := determine_chapter_type chapter
  let chapter_multiplier := (chapter_type_multipliers.lookup chapter_type).getD 1
  let chapter_limit :=
    pyIntFloor ((content.length : Rat) * chapter_effect_limit * chapter_multiplier)
  let items_with_effects := content.filter (fun it => hasEffects it)
  let items_without_effects := content.filter (fun it => !hasEffects it)
  if chapter_limit < items_with_effects.length then
    let sorted_with := pySortDesc (·.emotional_score) items_with_effects
    let kept := sorted_with.take chapter_limit
    let excess := sorted_with.drop chapter_limit
    let effects_removed := (excess.map (·.effects.length)).sum
    let cleared := excess.map (fun it => { it with effects := [] })
    (pySortAsc (fun it => it.position.getD 0) (kept ++ (items_without_effects ++ cleared)),
     effects_removed)
  else
    (pySortAsc (fun it => it.position.getD 0) (items_with_effects ++ items_without_effects),
     0)

/-- `_apply_spacing_rules`: one pass in book order over the flattened
segments, clearing the effects of any effect-bearing segment that is closer
than `minimum_effect_spacing` to the previous kept effect-bearing segment or
extends a run beyond `maximum_consecutive_effects`. -/
def apply_spacing_rules : List Item → Int → Nat → Nat → List Item
  | [], _, _, _ => []
  | it :: rest, last_effect_position, consecutive_effects, i =>
    if hasEffects it ∧
        ((i : Int) - last_effect_position < (minimum_effect_spacing : Int)
          ∨ maximum_consecutive_effects ≤ consecutive_effects) then
      { it with effects := [] } :: apply_spacing_rules rest last_effect_position 0 (i + 1)
    else if hasEffects it then
      it :: apply_spacing_rules rest (i : Int) (consecutive_effects + 1) (i + 1)
    else
      it :: apply_spacing_rules rest last_effect_position 0 (i + 1)

/-- `_enforce_global_spacing`: flatten the chapters, run the spacing pass
(with `last_effect_position` initialized to `-minimum_effect_spacing`), and
re-slice at the recorded chapter boundaries. -/
def enforce_global_spacing (chapters : List (List Item)) : List (List Item) :=
  let all_content := chapters.flatten
  let controlled := apply_spacing_rules all_content (-(minimum_effect_spacing : Int)) 0 0
  splitByLens (chapters.map (·.length)) controlled

/-- `_count_total_segments`. -/
def count_total_segments (markup : Markup) : Nat :=
  (markup.chapters.map (fun ch => ch.content.length)).sum

/-- `enforce_sparsity_rules`: chapter-level capping followed by the global
spacing pass.  The chapter dicts are replaced by bare segment lists, exactly
as in the code; the write-only `sparsity_metadata` report is omitted, and
the `try` body is total on typed markup, so the `except`-returns-input
branch is unreachable. -/
def enforce_sparsity_rules (enhanced_markup : Markup) : SMarkup :=
  let total := count_total_segments enhanced_markup
  let target_effects := pyIntFloor ((total : Rat) * global_effect_density)
  let controlled_chapters :=
    enhanced_markup.chapters.map (fun ch => (apply_chapter_sparsity ch target_effects).1)
  let spaced := enforce_global_spacing controlled_chapters
  { bookTitle := enhanced_markup.bookTitle
    theme := enhanced_markup.theme
    chapters := spaced.map OutChapter.bare
    analysis_metadata := enhanced_markup.analysis_metadata }

/-! ### Orchestrator (`story_analyzer.py`) -/

/-- `_get_character_relevance`: 0.8 for characters mentioned in the text
(case-insensitive substring), 0.1 otherwise. -/
def get_character_relevance (content_item : PItem) (character_profiles : Profiles) :
    List (String × Rat) :=
  character_profiles.map (fun cp =>
    (cp.1, if strContains content_item.text.toLower cp.1.toLower then 8/10 else 1/10))

/-- `_apply_emotional_scoring`: annotate every segment with
`emotional_score`, `emotional_context` and `character_relevance` (the
write-only `chapter_emotional_profile` is omitted).  The spread
`{**chapter, ...}` keeps the parser keys `title`/`content` and adds no
`bookTitle`/`structural_role`/`position` keys. -/
def apply_emotional_scoring (parsed_book : ParsedBook) (structure_data : StructureData)
    (character_profiles : Profiles) : List ChapterD :=
  parsed_book.chapters.map (fun ch =>
    { title := ch.title
      bookTitle := none
      structural_role := none
      content := ch.content.map (fun it =>
        { type := it.type
          text := it.text
          emotional_score := calculate_emotional_weight it structure_data character_profiles
          emotional_context := get_emotional_context it
          character_relevance := get_character_relevance it character_profiles
          effects := []
          quality_score := 0
          position := none }) })

/-- `self.theme_keywords` in `_determine_book_theme` (insertion order). -/
def theme_keyword_table : List (String × List String) :=
  [("historical", ["king", "queen", "castle", "sword", "battle", "ancient"]),
   ("romance", ["love", "heart", "kiss", "romance", "passion"]),
   ("adventure", ["journey", "quest", "adventure", "explore", "discover"]),
   ("mystery", ["secret", "mystery", "clue", "investigate", "solve"]),
   ("scifi", ["space", "future", "robot", "technology", "planet"])]

/-- The `all_text` variable of `_determine_book_theme`: the lower-cased
space-joined concatenation of all segment texts. -/
def book_all_text (chapters : List ChapterD) : String :=
  (String.intercalate " "
    (chapters.flatMap (fun ch => ch.content.map (·.text)))).toLower

/-- The `theme_scores` dict of `_determine_book_theme`: for each theme, how
many of its keywords occur in `book_all_text`. -/
def theme_scores_of (chapters : List ChapterD) : List (String × Nat) :=
  theme_keyword_table.map
    (fun p => (p.1, p.2.countP (fun kw => strContains (book_all_text chapters) kw)))

/-- `_determine_book_theme`: `max(theme_scores, key=theme_scores.get)` over
the (always non-empty) score dict; the trailing `return 'general'` is
unreachable and embedded as the impossible `none` branch. -/
def determine_book_theme (chapters : List ChapterD) : String :=
  match pyMaxByKey (fun p => p.2) (theme_scores_of chapters) with
  | some p => p.1
  | none => "general"

/-- The inner segment loop of `_apply_intelligent_effects` for one chapter:
select effects for each segment in order, threading the effect history and
the random-draw index; a history entry is appended exactly when the selected
list is non-empty. -/
def applySegLoop (coin : Nat → Bool) (character_profiles : Profiles) (chIdx : Nat) :
    List Item → List HistEntry → Nat → Nat → List Item × List HistEntry × Nat
  | [], effect_history, k, _pos => ([], effect_history, k)
  | it :: rest, effect_history, k, pos =>
    let sel := select_appropriate_effects coin k it character_profiles effect_history "general"
    let it' := { it with effects := sel.1 }
    let hist' :=
      if sel.1.isEmpty then effect_history
      else effect_history ++ [{ chapter := chIdx, position := pos, effects := sel.1 }]
    let r := applySegLoop coin character_profiles chIdx rest hist' sel.2 (pos + 1)
    (it' :: r.1, r.2.1, r.2.2)

/-- The outer chapter loop of `_apply_intelligent_effects`. -/
def applyChaptersLoop (coin : Nat → Bool) (character_profiles : Profiles) :
    List ChapterD → List HistEntry → Nat → Nat →
    List ChapterD × List HistEntry × Nat
  | [], effect_history, k, _chIdx => ([], effect_history, k)
  | ch :: rest, effect_history, k, chIdx =>
    let r := applySegLoop coin character_profiles chIdx ch.content effect_history k 0
    let r' := applyChaptersLoop coin character_profiles rest r.2.1 r.2.2 (chIdx + 1)
    ({ ch with content := r.1 } :: r'.1, r'.2.1, r'.2.2)

/-- `_analyze_effect_distribution`: on an empty history it returns the
zero report; otherwise its `average_effects_per_chapter` entry computes
`len(effect_history) / max(chapter_distribution.keys())`, dividing by the
largest chapter index among the history entries — a `ZeroDivisionError`
exactly when that maximum is `0`, i.e. when every effect-bearing segment
lies in the first chapter.  The report itself is write-only, so the
embedding keeps only the success/raise behaviour. -/
def analyze_effect_distribution (effect_history : List HistEntry) : Except Unit Unit :=
  if effect_history.isEmpty then .ok ()
  else if (effect_history.map (·.chapter)).foldl Nat.max 0 = 0 then .error ()
  else .ok ()

/-- `_apply_intelligent_effects`: run the selection loops with an initially
empty history, then build the markup dict.  The dict values are evaluated
in order: `enhanced_chapters[0].get('bookTitle', 'Unknown')` first, which
raises `IndexError` on an empty chapter list; later the metadata's
`effect_distribution` value calls `_analyze_effect_distribution`, which
raises `ZeroDivisionError` when the history is non-empty and its largest
chapter index is `0`.  Both exceptions are embedded as the `error` branch.
(The write-only `effect_distribution` and `character_effect_usage` report
values are otherwise omitted.) -/
def apply_intelligent_effects (coin : Nat → Bool) (enhanced_chapters : List ChapterD)
    (character_profiles : Profiles) : Except Unit Markup :=
  match enhanced_chapters with
  | [] => .error ()
  | c0 :: _ =>
    let r := applyChaptersLoop coin character_profiles enhanced_chapters [] 0 0
    match analyze_effect_distribution r.2.1 with
    | .error e => .error e
    | .ok _ =>
      .ok { bookTitle := c0.bookTitle.getD "Unknown"
            theme := determine_book_theme enhanced_chapters
            chapters := r.1
            analysis_metadata := { total_effects_applied := some r.2.1.length } }

/-- `_create_fallback_markup`: original text preserved, every segment's
effects empty, metadata `status: fallback`. -/
def create_fallback_markup (parsed_book : ParsedBook) : SMarkup :=
  { bookTitle := parsed_book.title
    theme := "general"
    chapters := parsed_book.chapters.map (fun ch =>
      OutChapter.titled ch.title (ch.content.map (fun it =>
        { type := it.type, text := it.text, effects := [] })))
    analysis_metadata :=
      { status := some "fallback"
        error := some "Analysis pipeline failed, using basic markup" } }

/-- The `try` body of `analyze_and_enhance`: structural analysis is the
parameter `structure_data`; the character stage's own `try/except` boundary
is embedded via `character_inner` (`error` = the inner analysis raised, in
which case `analyze_character_arcs` returns the narrator fallback map);
scoring, selection, quality control and sparsity control are sequenced as in
the code.  The uncaught exceptions on typed input are the `IndexError` and
`ZeroDivisionError` of `apply_intelligent_effects`. -/
def analyzePipeline (coin : Nat → Bool) (structure_data : StructureData)
    (character_inner : Except Unit Profiles) (parsed_book : ParsedBook) :
    Except Unit SMarkup :=
  let character_profiles :=
    match character_inner with
    | .ok p => p
    | .error _ => fallback_character_profiles
  let enhanced_chapters :=
    apply_emotional_scoring parsed_book structure_data character_profiles
  match apply_intelligent_effects coin enhanced_chapters character_profiles with
  | .error e => .error e
  | .ok final_markup =>
    .ok (enforce_sparsity_rules (validate_all_effects final_markup))

/-- `analyze_and_enhance`: the pipeline with its outer `except` handler
producing the fallback markup. -/
def analyze_and_enhance (coin : Nat → Bool) (structure_data : StructureData)
    (character_inner : Except Unit Profiles) (parsed_book : ParsedBook) : SMarkup :=
  match analyzePipeline coin structure_data character_inner parsed_book with
  | .ok m => m
  | .error _ => create_fallback_markup parsed_book


/-! ### Helper lemmas: Python list-operation semantics -/

lemma foldl_pyMax_mem {α β : Type} [LinearOrder β] (key : α → β) :
    ∀ (xs : List α) (x : α),
      xs.foldl (fun b y => if key b < key y then y else b) x ∈ x :: xs := by
  intro xs
  induction xs with
  | nil => intro x; simp
  | cons y ys ih =>
    intro x
    rw [List.foldl_cons]
    by_cases h : key x < key y
    · rw [if_pos h]
      exact List.mem_cons_of_mem x (ih y)
    · rw [if_neg h]
      rcases List.mem_cons.mp (ih x) with h3 | h3
      · rw [h3]
        exact List.mem_cons_self x _
      · exact List.mem_cons_of_mem x (List.mem_cons_of_mem y h3)

lemma foldl_pyMax_le {α β : Type} [LinearOrder β] (key : α → β) :
    ∀ (xs : List α) (x : α),
      key x ≤ key (xs.foldl (fun b y => if key b < key y then y else b) x)
      ∧ ∀ a ∈ xs, key a ≤ key (xs.foldl (fun b y => if key b < key y then y else b) x) := by
  intro xs
  induction xs with
  | nil =>
    intro x
    refine ⟨le_refl _, ?_⟩
    intro a ha
    simp at ha
  | cons y ys ih =>
    intro x
    rw [List.foldl_cons]
    by_cases h : key x < key y
    · rw [if_pos h]
      obtain ⟨h1, h2⟩ := ih y
      refine ⟨le_trans (le_of_lt h) h1, ?_⟩
      intro a ha
      rcases List.mem_cons.mp ha with rfl | ha'
      · exact h1
      · exact h2 a ha'
    · rw [if_neg h]
      obtain ⟨h1, h2⟩ := ih x
      refine ⟨h1, ?_⟩
      intro a ha
      rcases List.mem_cons.mp ha with rfl | ha'
      · exact le_trans (le_of_not_lt h) h1
      · exact h2 a ha'

lemma foldl_pyMax_stay {α β : Type} [LinearOrder β] (key : α → β) (x : α) :
    ∀ (xs : List α), (∀ a ∈ xs, ¬ key x < key a) →
      xs.foldl (fun b y => if key b < key y then y else b) x = x := by
  intro xs
  induction xs with
  | nil => intro _; rfl
  | cons y ys ih =>
    intro h
    rw [List.foldl_cons, if_neg (h y (List.mem_cons_self y ys))]
    exact ih (fun a ha => h a (List.mem_cons_of_mem y ha))

lemma pyMaxByKey_mem {α β : Type} [LinearOrder β] (key : α → β) (l : List α) (m : α)
    (h : pyMaxByKey key l = some m) : m ∈ l := by
  match l with
  | [] => simp [pyMaxByKey] at h
  | x :: xs =>
    simp only [pyMaxByKey, Option.some.injEq] at h
    exact h ▸ foldl_pyMax_mem key xs x

lemma pyMaxByKey_le {α β : Type} [LinearOrder β] (key : α → β) (l : List α) (m : α)
    (h : pyMaxByKey key l = some m) : ∀ a ∈ l, key a ≤ key m := by
  match l with
  | [] => simp [pyMaxByKey] at h
  | x :: xs =>
    simp only [pyMaxByKey, Option.some.injEq] at h
    subst h
    intro a ha
    rcases List.mem_cons.mp ha with rfl | ha'
    · exact (foldl_pyMax_le key xs a).1
    · exact (foldl_pyMax_le key xs x).2 a ha'

lemma pyMaxByKey_cons_stay {α β : Type} [LinearOrder β] (key : α → β) (x : α)
    (xs : List α) (h : ∀ a ∈ xs, ¬ key x < key a) :
    pyMaxByKey key (x :: xs) = some x := by
  simp only [pyMaxByKey, Option.some.injEq]
  exact foldl_pyMax_stay key x xs h

lemma pyMaxByKey_singleton {α β : Type} [LinearOrder β] (key : α → β) (x : α) :
    pyMaxByKey key [x] = some x := rfl

lemma mem_insertDesc {α : Type} (key : α → Rat) (x a : α) :
    ∀ (l : List α), a ∈ insertDesc key x l ↔ a = x ∨ a ∈ l := by
  intro l
  induction l with
  | nil => simp [insertDesc]
  | cons y ys ih =>
    simp only [insertDesc]
    by_cases h : key x < key y
    · rw [if_pos h]
      simp only [List.mem_cons, ih]
      tauto
    · rw [if_neg h]
      simp only [List.mem_cons]

lemma mem_pySortDesc {α : Type} (key : α → Rat) (a : α) :
    ∀ (l : List α), a ∈ pySortDesc key l ↔ a ∈ l := by
  intro l
  induction l with
  | nil => simp [pySortDesc]
  | cons y ys ih =>
    simp only [pySortDesc, mem_insertDesc, List.mem_cons, ih]

lemma length_insertDesc {α : Type} (key : α → Rat) (x : α) :
    ∀ (l : List α), (insertDesc key x l).length = l.length + 1 := by
  intro l
  induction l with
  | nil => rfl
  | cons y ys ih =>
    simp only [insertDesc]
    by_cases h : key x < key y
    · rw [if_pos h]
      simp only [List.length_cons, ih]
    · rw [if_neg h]
      simp only [List.length_cons]

lemma length_pySortDesc {α : Type} (key : α → Rat) :
    ∀ (l : List α), (pySortDesc key l).length = l.length := by
  intro l
  induction l with
  | nil => rfl
  | cons y ys ih => simp [pySortDesc, length_insertDesc, ih]

lemma mem_insertAsc {α : Type} (key : α → Nat) (x a : α) :
    ∀ (l : List α), a ∈ insertAsc key x l ↔ a = x ∨ a ∈ l := by
  intro l
  induction l with
  | nil => simp [insertAsc]
  | cons y ys ih =>
    simp only [insertAsc]
    by_cases h : key x ≤ key y
    · rw [if_pos h]
      simp only [List.mem_cons]
    · rw [if_neg h]
      simp only [List.mem_cons, ih]
      tauto

lemma mem_pySortAsc {α : Type} (key : α → Nat) (a : α) :
    ∀ (l : List α), a ∈ pySortAsc key l ↔ a ∈ l := by
  intro l
  induction l with
  | nil => simp [pySortAsc]
  | cons y ys ih =>
    simp only [pySortAsc, mem_insertAsc, List.mem_cons, ih]

lemma mem_dedupFirst {α : Type} [DecidableEq α] (a : α) :
    ∀ (l : List α), a ∈ dedupFirst l ↔ a ∈ l := by
  intro l
  induction l using dedupFirst.induct with
  | case1 => simp [dedupFirst]
  | case2 x xs ih =>
    rw [dedupFirst]
    simp only [List.mem_cons, ih, List.mem_filter]
    constructor
    · rintro (rfl | ⟨h1, _⟩)
      · exact Or.inl rfl
      · exact Or.inr h1
    · rintro (rfl | h)
      · exact Or.inl rfl
      · by_cases hax : a = x
        · exact Or.inl hax
        · exact Or.inr ⟨h, by simp [hax]⟩

lemma nodup_dedupFirst {α : Type} [DecidableEq α] :
    ∀ (l : List α), (dedupFirst l).Nodup := by
  intro l
  induction l using dedupFirst.induct with
  | case1 => simp [dedupFirst]
  | case2 x xs ih =>
    rw [dedupFirst]
    refine List.nodup_cons.mpr ⟨?_, ih⟩
    intro hmem
    rcases List.mem_filter.mp ((mem_dedupFirst x _).mp hmem) with ⟨_, h2⟩
    simp at h2

lemma length_dedupFirst_le {α : Type} [DecidableEq α] :
    ∀ (l : List α), (dedupFirst l).length ≤ l.length := by
  intro l
  induction l using dedupFirst.induct with
  | case1 => simp [dedupFirst]
  | case2 x xs ih =>
    rw [dedupFirst]
    simp only [List.length_cons]
    have h2 := List.length_filter_le (fun y => decide (y ≠ x)) xs
    omega

lemma dedupFirst_of_nodup {α : Type} [DecidableEq α] :
    ∀ (l : List α), l.Nodup → dedupFirst l = l := by
  intro l
  induction l with
  | nil => intro _; rw [dedupFirst]
  | cons x xs ih =>
    intro h
    rcases List.nodup_cons.mp h with ⟨hx, hxs⟩
    rw [dedupFirst]
    have hfil : xs.filter (fun y => y ≠ x) = xs := by
      apply List.filter_eq_self.mpr
      intro a ha
      simp only [ne_eq, decide_eq_true_eq, decide_not]
      simp only [Bool.not_eq_true', decide_eq_false_iff_not]
      intro hax
      exact hx (hax ▸ ha)
    rw [hfil, ih hxs]

lemma flatten_splitByLens {α : Type} :
    ∀ (ns : List Nat) (l : List α), ns ≠ [] → (splitByLens ns l).flatten = l := by
  intro ns
  induction ns with
  | nil => intro l h; exact absurd rfl h
  | cons n ns ih =>
    intro l _
    cases ns with
    | nil => simp [splitByLens]
    | cons m ms =>
      rw [splitByLens]
      · simp only [List.flatten_cons]
        rw [ih (l.drop n) (List.cons_ne_nil m ms)]
        exact List.take_append_drop n l
      · exact fun hh => List.noConfusion hh

lemma any_false_of_subset {α : Type} (p : α → Bool) {l₁ l₂ : List α}
    (hsub : ∀ a ∈ l₂, a ∈ l₁) (h : l₁.any p = false) : l₂.any p = false := by
  rw [List.any_eq_false] at h ⊢
  exact fun a ha => h a (hsub a ha)

lemma exists_of_findSome?_eq_some {α β : Type} {f : α → Option β} :
    ∀ {l : List α} {b : β}, l.findSome? f = some b → ∃ a ∈ l, f a = some b := by
  intro l
  induction l with
  | nil => intro b h; simp [List.findSome?] at h
  | cons x xs ih =>
    intro b h
    rw [List.findSome?_cons] at h
    cases hfx : f x with
    | some v =>
      rw [hfx] at h
      refine ⟨x, List.mem_cons_self x xs, ?_⟩
      rw [hfx]
      exact h
    | none =>
      rw [hfx] at h
      obtain ⟨a, ha, hfa⟩ := ih h
      exact ⟨a, List.mem_cons_of_mem x ha, hfa⟩

/-! ### Sparsity-controller lemmas -/

/-- Placeholder segment used by the positional accessor `bearAt` (its
`effects` are empty, so out-of-range positions never count as
effect-bearing). -/
def dummyItem : Item := {}

/-- Position `p` of `l` holds an effect-bearing segment. -/
@[reducible] def bearAt (l : List Item) (p : Nat) : Prop :=
  (l.getD p dummyItem).effects ≠ []

lemma hasEffects_iff (it : Item) : hasEffects it = true ↔ it.effects ≠ [] := by
  simp [hasEffects, List.isEmpty_iff]

lemma bearAt_nil (p : Nat) : ¬ bearAt [] p := by
  simp [bearAt, dummyItem, List.getD]

lemma bearAt_cons_zero (x : Item) (l : List Item) :
    bearAt (x :: l) 0 ↔ x.effects ≠ [] := by
  simp [bearAt]

lemma bearAt_cons_succ (x : Item) (l : List Item) (p : Nat) :
    bearAt (x :: l) (p + 1) ↔ bearAt l p := by
  simp [bearAt]

lemma apply_spacing_rules_spec :
    ∀ (l : List Item) (last : Int) (consec : Nat) (i : Nat),
      (∀ p, bearAt (apply_spacing_rules l last consec i) p →
          last + (minimum_effect_spacing : Int) ≤ (i : Int) + p)
      ∧ (∀ p q, p < q → bearAt (apply_spacing_rules l last consec i) p →
          bearAt (apply_spacing_rules l last consec i) q →
          minimum_effect_spacing ≤ q - p) := by
  intro l
  induction l with
  | nil =>
    intro last consec i
    constructor
    · intro p hp
      exact absurd hp (by rw [apply_spacing_rules]; exact bearAt_nil p)
    · intro p q _ hp _
      exact absurd hp (by rw [apply_spacing_rules]; exact bearAt_nil p)
  | cons it rest ih =>
    intro last consec i
    rw [apply_spacing_rules]
    split_ifs with h1 h2
    · -- effects cleared: head is not effect-bearing
      obtain ⟨ihA, ihB⟩ := ih last 0 (i + 1)
      constructor
      · intro p hp
        match p with
        | 0 =>
          rw [bearAt_cons_zero] at hp
          simp at hp
        | p + 1 =>
          rw [bearAt_cons_succ] at hp
          have := ihA p hp
          push_cast at this ⊢
          omega
      · intro p q hpq hp hq
        match p, q with
        | 0, _ =>
          rw [bearAt_cons_zero] at hp
          simp at hp
        | p + 1, 0 => omega
        | p + 1, q + 1 =>
          rw [bearAt_cons_succ] at hp hq
          have := ihB p q (by omega) hp hq
          omega
    · -- head kept with effects: the guard gives the spacing bound
      have hng : ¬ ((i : Int) - last < (minimum_effect_spacing : Int)
          ∨ maximum_consecutive_effects ≤ consec) := fun hg => h1 ⟨h2, hg⟩
      push_neg at hng
      obtain ⟨hsp, _⟩ := hng
      obtain ⟨ihA, ihB⟩ := ih (i : Int) (consec + 1) (i + 1)
      constructor
      · intro p hp
        match p with
        | 0 => push_cast; omega
        | p + 1 =>
          rw [bearAt_cons_succ] at hp
          have := ihA p hp
          push_cast at this ⊢
          omega
      · intro p q hpq hp hq
        match p, q with
        | 0, 0 => omega
        | 0, q + 1 =>
          rw [bearAt_cons_succ] at hq
          have := ihA q hq
          push_cast at this
          omega
        | p + 1, 0 => omega
        | p + 1, q + 1 =>
          rw [bearAt_cons_succ] at hp hq
          have := ihB p q (by omega) hp hq
          omega
    · -- head without effects
      obtain ⟨ihA, ihB⟩ := ih last 0 (i + 1)
      have hne : it.effects = [] := by
        by_contra hc
        exact h2 ((hasEffects_iff it).mpr hc)
      constructor
      · intro p hp
        match p with
        | 0 =>
          rw [bearAt_cons_zero] at hp
          exact absurd hne hp
        | p + 1 =>
          rw [bearAt_cons_succ] at hp
          have := ihA p hp
          push_cast at this ⊢
          omega
      · intro p q hpq hp hq
        match p, q with
        | 0, _ =>
          rw [bearAt_cons_zero] at hp
          exact absurd hne hp
        | p + 1, 0 => omega
        | p + 1, q + 1 =>
          rw [bearAt_cons_succ] at hp hq
          have := ihB p q (by omega) hp hq
          omega

lemma apply_spacing_rules_prune :
    ∀ (l : List Item) (last : Int) (consec : Nat) (i : Nat),
      List.Forall₂ (fun a b => b = a ∨ b = { a with effects := [] })
        l (apply_spacing_rules l last consec i) := by
  intro l
  induction l with
  | nil =>
    intro last consec i
    rw [apply_spacing_rules]
    exact List.Forall₂.nil
  | cons it rest ih =>
    intro last consec i
    rw [apply_spacing_rules]
    split_ifs with h1 h2
    · exact List.Forall₂.cons (Or.inr rfl) (ih last 0 (i + 1))
    · exact List.Forall₂.cons (Or.inl rfl) (ih (i : Int) (consec + 1) (i + 1))
    · exact List.Forall₂.cons (Or.inl rfl) (ih last 0 (i + 1))

/-- The chapter-capped content lists computed inside
`enforce_sparsity_rules`, before the global spacing pass. -/
def cappedChapters (m : Markup) : List (List Item) :=
  m.chapters.map (fun ch =>
    (apply_chapter_sparsity ch
      (pyIntFloor ((count_total_segments m : Rat) * global_effect_density))).1)

/-- Book-order flattening of the chapter-capped segments. -/
def cappedFlat (m : Markup) : List Item :=
  (cappedChapters m).flatten

/-- Book-order flattening of the final sparsity-controlled output. -/
def sparsityFlat (m : Markup) : List Item :=
  ((enforce_sparsity_rules m).chapters.map OutChapter.contentOf).flatten

lemma sparsityFlat_eq (m : Markup) :
    sparsityFlat m =
      apply_spacing_rules (cappedFlat m) (-(minimum_effect_spacing : Int)) 0 0 := by
  unfold sparsityFlat enforce_sparsity_rules enforce_global_spacing
  simp only [List.map_map]
  have hco : (OutChapter.contentOf ∘ OutChapter.bare) = id := funext (fun l => rfl)
  rw [hco, List.map_id]
  cases hch : m.chapters with
  | nil =>
    simp [hch, cappedFlat, cappedChapters, splitByLens, apply_spacing_rules]
  | cons c cs =>
    rw [flatten_splitByLens _ _ (by simp [hch])]
    unfold cappedFlat cappedChapters
    rw [hch]

lemma forall₂_mem_right {α β : Type} {R : α → β → Prop} :
    ∀ {l : List α} {l' : List β}, List.Forall₂ R l l' → ∀ b ∈ l', ∃ a ∈ l, R a b := by
  intro l l' h
  induction h with
  | nil => intro b hb; simp at hb
  | cons hR hrest ih =>
    intro b hb
    rcases List.mem_cons.mp hb with rfl | hb'
    · exact ⟨_, List.mem_cons_self _ _, hR⟩
    · obtain ⟨a, ha, haR⟩ := ih b hb'
      exact ⟨a, List.mem_cons_of_mem _ ha, haR⟩

lemma apply_chapter_sparsity_mem (ch : ChapterD) (t : Nat) :
    ∀ a ∈ (apply_chapter_sparsity ch t).1,
      ∃ i0 ∈ ch.content, a = i0 ∨ a = { i0 with effects := [] } := by
  intro a ha
  simp only [apply_chapter_sparsity] at ha
  split_ifs at ha with h
  · dsimp only at ha
    rw [mem_pySortAsc] at ha
    rcases List.mem_append.mp ha with hk | hrest
    · have h1 : a ∈ pySortDesc (fun it => it.emotional_score)
          (ch.content.filter (fun it => hasEffects it)) :=
        List.take_subset _ _ hk
      rw [mem_pySortDesc] at h1
      exact ⟨a, (List.mem_filter.mp h1).1, Or.inl rfl⟩
    · rcases List.mem_append.mp hrest with hw | hc
      · exact ⟨a, (List.mem_filter.mp hw).1, Or.inl rfl⟩
      · rcases List.mem_map.mp hc with ⟨b, hb, rfl⟩
        have h1 : b ∈ pySortDesc (fun it => it.emotional_score)
            (ch.content.filter (fun it => hasEffects it)) :=
          List.drop_subset _ _ hb
        rw [mem_pySortDesc] at h1
        exact ⟨b, (List.mem_filter.mp h1).1, Or.inr rfl⟩
  · dsimp only at ha
    rw [mem_pySortAsc] at ha
    rcases List.mem_append.mp ha with hw | hwo
    · exact ⟨a, (List.mem_filter.mp hw).1, Or.inl rfl⟩
    · exact ⟨a, (List.mem_filter.mp hwo).1, Or.inl rfl⟩

/-! ### Quality-controller lemmas -/

lemma remove_redundant_subset (l : List Effect) :
    ∀ e ∈ remove_redundant_effects l, e ∈ l := by
  intro e he
  unfold remove_redundant_effects at he
  split_ifs at he with h
  · exact he
  · obtain ⟨t, _, hmax⟩ := List.mem_filterMap.mp he
    exact (List.mem_filter.mp (pyMaxByKey_mem _ _ _ hmax)).1

lemma length_remove_redundant_le (l : List Effect) :
    (remove_redundant_effects l).length ≤ l.length := by
  unfold remove_redundant_effects
  split_ifs with h
  · exact le_refl _
  · calc ((dedupFirst (l.map (·.type))).filterMap _).length
        ≤ (dedupFirst (l.map (·.type))).length := List.length_filterMap_le _ _
      _ ≤ (l.map (·.type)).length := length_dedupFirst_le _
      _ = l.length := List.length_map _ _

lemma apply_quality_filters_subset (l : List Effect) (it : Item) :
    ∀ e ∈ apply_quality_filters l it, e ∈ l := by
  intro e he
  unfold apply_quality_filters at he
  split_ifs at he with h h2
  · simp at he
  · dsimp only at he
    have h1 := remove_redundant_subset _ e he
    have h3 := List.take_subset _ _ h1
    exact (mem_pySortDesc _ e _).mp h3
  · dsimp only at he
    exact remove_redundant_subset _ e he

lemma length_apply_quality_filters_le (l : List Effect) (it : Item) :
    (apply_quality_filters l it).length ≤ l.length := by
  unfold apply_quality_filters
  split_ifs with h h2
  · simp
  · dsimp only
    refine le_trans (length_remove_redundant_le _) ?_
    refine le_trans (List.length_take_le _ _) ?_
    exact le_of_lt h2
  · dsimp only
    exact length_remove_redundant_le _

lemma validate_subset (it : Item) :
    ∀ e ∈ validate_content_effects it, e ∈ it.effects ∧ is_effect_valid e it = true := by
  intro e he
  unfold validate_content_effects at he
  split_ifs at he with h
  · simp at he
  · have h1 := apply_quality_filters_subset _ _ e he
    have h2 := List.mem_filter.mp h1
    exact ⟨h2.1, by simpa using h2.2⟩

lemma length_validate_le (it : Item) :
    (validate_content_effects it).length ≤ it.effects.length := by
  unfold validate_content_effects
  split_ifs with h
  · simp
  · exact le_trans (length_apply_quality_filters_le _ _) (List.length_filter_le _ _)

lemma valid_parts {e : Effect} {it : Item} (h : is_effect_valid e it = true) :
    is_valid_effect_type e.type = true ∧ is_context_appropriate e it = true := by
  simp only [is_effect_valid, Bool.and_eq_true] at h
  exact ⟨h.1.1.2, h.1.2⟩

lemma is_context_appropriate_iff (e : Effect) (it : Item) :
    is_context_appropriate e it = true ↔
      (context_violations.any (fun cv =>
          strContains it.text.toLower cv.1 && cv.2.contains (effectName e)) = false
       ∧ it.effects.any (fun o =>
          o ≠ e && inappropriate_combinations.contains (effectName e, effectName o)) = false) := by
  simp only [is_context_appropriate]
  split_ifs with h1 h2 <;> simp_all
  exact h1

lemma filterMap_types {ts : List String} {f : String → Option Effect}
    (hs : ∀ t ∈ ts, ∃ e, f t = some e ∧ e.type = t) :
    (ts.filterMap f).map (·.type) = ts := by
  induction ts with
  | nil => rfl
  | cons t ts ih =>
    obtain ⟨e, he, het⟩ := hs t (List.mem_cons_self t ts)
    rw [List.filterMap_cons_some he, List.map_cons, het,
      ih (fun u hu => hs u (List.mem_cons_of_mem t hu))]

lemma pyMax_filter_type (l : List Effect) (t : String) (ht : t ∈ l.map (·.type)) :
    ∃ m, pyMaxByKey (·.intensity) (l.filter (fun e => e.type = t)) = some m
      ∧ m.type = t := by
  obtain ⟨e, he, het⟩ := List.mem_map.mp ht
  have hmem : e ∈ l.filter (fun e => e.type = t) :=
    List.mem_filter.mpr ⟨he, by simp [het]⟩
  cases hf : l.filter (fun e => e.type = t) with
  | nil => rw [hf] at hmem; simp at hmem
  | cons x xs =>
    refine ⟨_, rfl, ?_⟩
    have hin : (xs.foldl (fun b y => if b.intensity < y.intensity then y else b) x) ∈ x :: xs :=
      foldl_pyMax_mem _ xs x
    have h2 : ∀ y ∈ x :: xs, y.type = t := by
      intro y hy
      rw [← hf] at hy
      simpa using (List.mem_filter.mp hy).2
    exact h2 _ hin

lemma map_type_remove_redundant (l : List Effect) (h : ¬ l.length ≤ 1) :
    (remove_redundant_effects l).map (·.type) = dedupFirst (l.map (·.type)) := by
  unfold remove_redundant_effects
  rw [if_neg h]
  apply filterMap_types
  intro t ht
  exact pyMax_filter_type l t ((mem_dedupFirst t _).mp ht)

lemma nodup_types_remove_redundant (l : List Effect) :
    ((remove_redundant_effects l).map (·.type)).Nodup := by
  by_cases h : l.length ≤ 1
  · unfold remove_redundant_effects
    rw [if_pos h]
    match l, h with
    | [], _ => simp
    | [x], _ => simp
  · rw [map_type_remove_redundant l h]
    exact nodup_dedupFirst _

lemma filterMap_pyMax_of_nodup :
    ∀ (l : List Effect), (l.map (·.type)).Nodup →
      (l.map (·.type)).filterMap
        (fun t => pyMaxByKey (·.intensity) (l.filter (fun e => e.type = t))) = l := by
  intro l
  induction l with
  | nil => intro _; rfl
  | cons e l' ih =>
    intro h
    simp only [List.map_cons] at h ⊢
    obtain ⟨hx, h'⟩ := List.nodup_cons.mp h
    have htail : l'.filter (fun x => x.type = e.type) = [] := by
      apply List.filter_eq_nil_iff.mpr
      intro a ha
      simp only [decide_eq_true_eq]
      intro hat
      exact hx (List.mem_map.mpr ⟨a, ha, hat⟩)
    have hfe : (e :: l').filter (fun x => x.type = e.type) = [e] := by
      rw [List.filter_cons, if_pos (by simp)]
      rw [htail]
    rw [List.filterMap_cons_some (by rw [hfe]; rfl)]
    congr 1
    rw [@List.filterMap_congr _ _ _ (fun t =>
        pyMaxByKey (·.intensity) (l'.filter (fun x => x.type = t))) _ ?_]
    · exact ih h'
    · intro t ht
      have hne : e.type ≠ t := by
        intro hc
        exact hx (hc ▸ ht)
      rw [List.filter_cons, if_neg (by simpa using hne)]

lemma remove_redundant_of_nodup (l : List Effect)
    (h : (l.map (·.type)).Nodup) : remove_redundant_effects l = l := by
  unfold remove_redundant_effects
  split_ifs with hl
  · rfl
  · rw [dedupFirst_of_nodup _ h]
    exact filterMap_pyMax_of_nodup l h

lemma is_effect_valid_stable (e : Effect) (it : Item) (out : List Effect) (q : Rat)
    (hsub : ∀ a ∈ out, a ∈ it.effects)
    (hval : is_effect_valid e it = true) :
    is_effect_valid e { it with effects := out, quality_score := q } = true := by
  simp only [is_effect_valid, Bool.and_eq_true] at hval ⊢
  obtain ⟨⟨⟨h1, h2⟩, h3⟩, h4⟩ := hval
  refine ⟨⟨⟨h1, h2⟩, ?_⟩, h4⟩
  rw [is_context_appropriate_iff] at h3 ⊢
  exact ⟨h3.1, any_false_of_subset _ hsub h3.2⟩

lemma nodup_subset_le3 (d : List String) (hd : d.Nodup)
    (hsub : ∀ x ∈ d, x ∈ (["text_style", "word_effect", "sound"] : List String)) :
    d.length ≤ 3 := by
  rw [← List.toFinset_card_of_nodup hd]
  have hs : d.toFinset ⊆ (["text_style", "word_effect", "sound"] : List String).toFinset :=
    fun x hx => List.mem_toFinset.mpr (hsub x (List.mem_toFinset.mp hx))
  have := Finset.card_le_card hs
  have h3 : (["text_style", "word_effect", "sound"] : List String).toFinset.card = 3 := by
    decide
  omega

lemma length_remove_redundant_le3 (l : List Effect)
    (hvt : ∀ e ∈ l, is_valid_effect_type e.type = true) :
    (remove_redundant_effects l).length ≤ 3 := by
  by_cases h : l.length ≤ 1
  · have := length_remove_redundant_le l
    omega
  · have hmap := map_type_remove_redundant l h
    have hlen : (remove_redundant_effects l).length
        = ((remove_redundant_effects l).map (·.type)).length := (List.length_map _ _).symm
    rw [hlen, hmap]
    apply nodup_subset_le3 _ (nodup_dedupFirst _)
    intro x hx
    obtain ⟨e, he, rfl⟩ := List.mem_map.mp ((mem_dedupFirst x _).mp hx)
    have := hvt e he
    simpa [is_valid_effect_type] using this

lemma aqf_output_le3 (l : List Effect) (it : Item)
    (hvt : ∀ e ∈ l, is_valid_effect_type e.type = true) :
    (apply_quality_filters l it).length ≤ 3 := by
  unfold apply_quality_filters
  split_ifs with h h2
  · simp
  · dsimp only
    apply length_remove_redundant_le3
    intro e he
    have h3 := List.take_subset _ _ he
    exact hvt e ((mem_pySortDesc _ e _).mp h3)
  · dsimp only
    exact length_remove_redundant_le3 l hvt

lemma aqf_types_nodup (l : List Effect) (it : Item) :
    ((apply_quality_filters l it).map (·.type)).Nodup := by
  unfold apply_quality_filters
  split_ifs with h h2
  · simp
  · dsimp only
    exact nodup_types_remove_redundant _
  · dsimp only
    exact nodup_types_remove_redundant _

lemma aqf_eq_self (l : List Effect) (it : Item) (hne : ¬ l.isEmpty = true)
    (hle : l.length ≤ 3) (hnd : (l.map (·.type)).Nodup) :
    apply_quality_filters l it = l := by
  unfold apply_quality_filters
  rw [if_neg hne, if_neg (by simp only [maximum_effects_per_segment]; omega)]
  exact remove_redundant_of_nodup l hnd

lemma validate_types_nodup (it : Item) :
    ((validate_content_effects it).map (·.type)).Nodup := by
  unfold validate_content_effects
  split_ifs with h
  · simp
  · exact aqf_types_nodup _ _

lemma validate_le3 (it : Item) : (validate_content_effects it).length ≤ 3 := by
  unfold validate_content_effects
  split_ifs with h
  · simp
  · apply aqf_output_le3
    intro e he
    exact (valid_parts (by simpa using (List.mem_filter.mp he).2)).1

/-- Core idempotence fact: re-validating a segment that already carries its
validated effects removes nothing further. -/
lemma validate_content_effects_idem (it : Item) :
    validate_content_effects (qualityItem it) = validate_content_effects it := by
  have hq : (qualityItem it).effects = validate_content_effects it := rfl
  by_cases hempty : validate_content_effects it = []
  · rw [validate_content_effects, if_pos (by rw [hq, hempty]; rfl), hempty]
  · have hsubval := validate_subset it
    have hfilter : (validate_content_effects it).filter
        (fun e => is_effect_valid e (qualityItem it)) = validate_content_effects it := by
      apply List.filter_eq_self.mpr
      intro e he
      have h2 := is_effect_valid_stable e it (validate_content_effects it)
        (calculate_quality_score it (validate_content_effects it))
        (fun a ha => (hsubval a ha).1) (hsubval e he).2
      exact h2
    have hne2 : ¬ (qualityItem it).effects.isEmpty = true := by
      rw [hq]
      simpa [List.isEmpty_iff] using hempty
    rw [validate_content_effects, if_neg hne2]
    rw [hq, hfilter]
    exact aqf_eq_self _ _ (by simpa [List.isEmpty_iff] using hempty)
      (validate_le3 it) (validate_types_nodup it)

/-! ### Effect-selector lemmas -/

lemma select_appropriate_effects_le3 (coin : Nat → Bool) (k : Nat) (it : Item)
    (profs : Profiles) (hist : List HistEntry) (theme : String) :
    (select_appropriate_effects coin k it profs hist theme).1.length ≤ 3 := by
  unfold select_appropriate_effects
  rcases hg : should_apply_effects coin k it.emotional_score hist with ⟨b, k'⟩
  cases b
  · simp
  · dsimp only
    split_ifs <;> first
      | exact List.length_take_le _ _
      | omega

lemma select_gate_of_ne_nil {coin : Nat → Bool} {k : Nat} {it : Item}
    {profs : Profiles} {hist : List HistEntry} {theme : String}
    (h : (select_appropriate_effects coin k it profs hist theme).1 ≠ []) :
    (should_apply_effects coin k it.emotional_score hist).1 = true := by
  unfold select_appropriate_effects at h
  rcases hg : should_apply_effects coin k it.emotional_score hist with ⟨b, k'⟩
  rw [hg] at h
  cases b
  · simp at h
  · rfl

lemma recent_effect_count_eq (hist : List HistEntry) :
    recent_effect_count hist = hist.length - (hist.length - 10) := by
  unfold recent_effect_count
  rw [List.filter_true, List.length_drop]

lemma gate_hist_le2 {coin : Nat → Bool} {k : Nat} {s : Rat} {hist : List HistEntry}
    (h : (should_apply_effects coin k s hist).1 = true) : hist.length ≤ 2 := by
  unfold should_apply_effects at h
  split_ifs at h with h1 h2 h3
  have heq := recent_effect_count_eq hist
  omega

lemma filter_effects_by_theme_spec {names : List String} {ty theme nm : String}
    (h : nm ∈ filter_effects_by_theme names ty theme) :
    ∃ config, (effectLibraryOf ty).lookup nm = some config ∧
      (theme ∈ config.themes.getD ["general"]
        ∨ "general" ∈ config.themes.getD ["general"]) := by
  unfold filter_effects_by_theme at h
  obtain ⟨_, h2⟩ := List.mem_filter.mp h
  cases hl : (effectLibraryOf ty).lookup nm with
  | none => rw [hl] at h2; simp at h2
  | some config =>
    rw [hl] at h2
    refine ⟨config, rfl, ?_⟩
    simp only [Bool.or_eq_true] at h2
    rcases h2 with h2 | h2
    · exact Or.inl (List.elem_iff.mp h2)
    · exact Or.inr (List.elem_iff.mp h2)

lemma select_text_style_effect_spec {ectx : EmoContext} {profs : Profiles}
    {text : String} {avail : List String} {e : Effect}
    (h : select_text_style_effect ectx profs text avail = some e) :
    ∃ nm config, nm ∈ avail ∧ text_style_library.lookup nm = some config
      ∧ e.style = some nm ∧ e.type = "text_style" := by
  unfold select_text_style_effect at h
  dsimp only at h
  cases hm : pyMaxByKey (fun p => calculate_effect_relevance p.2 text)
      (avail.filterMap (fun name =>
        match text_style_library.lookup name with
        | none => none
        | some config =>
          if effect_matches_context config ectx.primary_emotion ectx.context_type text
          then some (name, config) else none)) with
  | none => rw [hm] at h; simp at h
  | some p =>
    obtain ⟨nm, config⟩ := p
    rw [hm] at h
    dsimp only at h
    simp only [Option.some.injEq] at h
    have hmem := pyMaxByKey_mem _ _ _ hm
    obtain ⟨name, hname, hsome⟩ := List.mem_filterMap.mp hmem
    cases hlook : text_style_library.lookup name with
    | none => rw [hlook] at hsome; simp at hsome
    | some config2 =>
      rw [hlook] at hsome
      dsimp only at hsome
      split_ifs at hsome with hmc
      simp only [Option.some.injEq, Prod.mk.injEq] at hsome
      obtain ⟨rfl, rfl⟩ := hsome
      refine ⟨name, config2, hname, hlook, ?_, ?_⟩ <;> rw [← h]

lemma select_word_effects_no_style {ectx : EmoContext} {text : String}
    {avail : List String} {e : Effect}
    (h : e ∈ select_word_effects ectx text avail) : e.style = none := by
  unfold select_word_effects at h
  have h1 := List.take_subset _ _ h
  obtain ⟨name, _, h2⟩ := List.mem_flatMap.mp h1
  cases hlook : word_effect_library.lookup name with
  | none => rw [hlook] at h2; simp at h2
  | some config =>
    rw [hlook] at h2
    dsimp only at h2
    split_ifs at h2 with hmc
    · obtain ⟨w, _, rfl⟩ := List.mem_map.mp h2
      rfl
    · simp at h2

lemma select_sound_effect_no_style {ectx : EmoContext} {text : String}
    {avail : List String} {e : Effect}
    (h : select_sound_effect ectx text avail = some e) : e.style = none := by
  unfold select_sound_effect at h
  obtain ⟨name, _, hsome⟩ := exists_of_findSome?_eq_some h
  cases hlook : sound_library.lookup name with
  | none => rw [hlook] at hsome; simp at hsome
  | some config =>
    rw [hlook] at hsome
    dsimp only at hsome
    split_ifs at hsome with hmc
    simp only [Option.some.injEq] at hsome
    rw [← hsome]

/-! ### Orchestrator selection-loop lemmas -/

lemma applySegLoop_hist (coin : Nat → Bool) (profs : Profiles) (chIdx : Nat) :
    ∀ (items : List Item) (hist : List HistEntry) (k pos : Nat),
      (applySegLoop coin profs chIdx items hist k pos).2.1.length
        = hist.length + (applySegLoop coin profs chIdx items hist k pos).1.countP
            (fun it => !it.effects.isEmpty)
      ∧ (applySegLoop coin profs chIdx items hist k pos).2.1.length
          ≤ max hist.length 3 := by
  intro items
  induction items with
  | nil =>
    intro hist k pos
    rw [applySegLoop]
    simp
  | cons it rest ih =>
    intro hist k pos
    rw [applySegLoop]
    rcases hsel : select_appropriate_effects coin k it profs hist "general" with ⟨effs, k2⟩
    dsimp only
    by_cases heff : effs.isEmpty
    · rw [if_pos heff]
      obtain ⟨ih1, ih2⟩ := ih hist k2 (pos + 1)
      constructor
      · rw [ih1, List.countP_cons]
        have : (!effs.isEmpty) = false := by simpa using heff
        simp [this]
      · exact ih2
    · rw [if_neg heff]
      have hgate : hist.length ≤ 2 := by
        apply @gate_hist_le2 coin k it.emotional_score hist
        apply @select_gate_of_ne_nil coin k it profs hist "general"
        rw [hsel]
        simpa [List.isEmpty_iff] using heff
      obtain ⟨ih1, ih2⟩ := ih (hist ++ [{ chapter := chIdx, position := pos, effects := effs }]) k2 (pos + 1)
      constructor
      · rw [ih1, List.countP_cons]
        have : (!effs.isEmpty) = true := by simpa using heff
        simp only [this, if_pos]
        simp only [List.length_append, List.length_cons, List.length_nil]
        omega
      · refine le_trans ih2 ?_
        simp only [List.length_append, List.length_cons, List.length_nil]
        omega

lemma applyChaptersLoop_hist (coin : Nat → Bool) (profs : Profiles) :
    ∀ (chs : List ChapterD) (hist : List HistEntry) (k cIdx : Nat),
      (applyChaptersLoop coin profs chs hist k cIdx).2.1.length
        = hist.length + (((applyChaptersLoop coin profs chs hist k cIdx).1.map
            (·.content)).flatten.countP (fun it => !it.effects.isEmpty))
      ∧ (applyChaptersLoop coin profs chs hist k cIdx).2.1.length ≤ max hist.length 3 := by
  intro chs
  induction chs with
  | nil =>
    intro hist k cIdx
    rw [applyChaptersLoop]
    simp
  | cons ch rest ih =>
    intro hist k cIdx
    rw [applyChaptersLoop]
    dsimp only
    obtain ⟨s1, s2⟩ := applySegLoop_hist coin profs cIdx ch.content hist k 0
    obtain ⟨c1, c2⟩ := ih (applySegLoop coin profs cIdx ch.content hist k 0).2.1
      (applySegLoop coin profs cIdx ch.content hist k 0).2.2 (cIdx + 1)
    constructor
    · rw [c1, s1]
      simp only [List.map_cons, List.flatten_cons, List.countP_append]
      omega
    · refine le_trans c2 ?_
      omega

/-! ### Orchestrator preservation lemmas -/

lemma validate_all_effects_bookTitle (m : Markup) :
    (validate_all_effects m).bookTitle = m.bookTitle := rfl

lemma enforce_sparsity_rules_bookTitle (m : Markup) :
    (enforce_sparsity_rules m).bookTitle = m.bookTitle := rfl

lemma validate_all_effects_metadata (m : Markup) :
    (validate_all_effects m).analysis_metadata = m.analysis_metadata := rfl

lemma enforce_sparsity_rules_metadata (m : Markup) :
    (enforce_sparsity_rules m).analysis_metadata = m.analysis_metadata := rfl

lemma pyMaxByKey_eq_none {α β : Type} [LinearOrder β] (key : α → β) (l : List α) :
    pyMaxByKey key l = none ↔ l = [] := by
  cases l <;> simp [pyMaxByKey]

/-! ### Claims -/

/-- Failing input for claim C1: a single 14-segment chapter with average
emotional score 0.8 (hence chapter type `climax`, chapter limit
`int(14*0.05*1.5) = 1`) whose sixth segment is the only effect-bearing one. -/
def c1Effect : Effect :=
  { type := "text_style", style := some "calm_gentle", intensity := 1/2 }

/-- The chapter of the C1 failing input. -/
def c1FailingChapter : ChapterD :=
  { title := "c1"
    content := (List.range 14).map (fun i =>
      { text := "s" ++ toString i, emotional_score := 4/5,
        effects := if i = 5 then [c1Effect] else [] }) }

/-- The markup of the C1 failing input, as it reaches the sparsity stage. -/
def c1FailingMarkup : Markup :=
  { bookTitle := "B", theme := "general", chapters := [c1FailingChapter],
    analysis_metadata := {} }

/-- C1: refuted by evaluation.  The chapter-cap step of
`enforce_sparsity_rules` concatenates effect-bearing segments in front of
the effect-free ones and then sorts by the `position` key, which no segment
carries, so the stable sort (all keys 0) keeps the reordered concatenation:
the effect-bearing segment `s5` moves to the front of the chapter and the
output segment order differs from the input order.  This contradicts the
spec's order-preservation invariant and the code's own comment
("Sort by original position to maintain order"): the claim describes the
intended behaviour and the code fails it. -/
theorem C1_chapter_sparsity_reorders :
    (sparsityFlat c1FailingMarkup).map (fun it => it.text)
      = ["s5", "s0", "s1", "s2", "s3", "s4", "s6", "s7",
         "s8", "s9", "s10", "s11", "s12", "s13"]
    ∧ (c1FailingMarkup.chapters.map (fun ch => ch.content)).flatten.map (fun it => it.text)
      = ["s0", "s1", "s2", "s3", "s4", "s5", "s6", "s7",
         "s8", "s9", "s10", "s11", "s12", "s13"]
    ∧ (sparsityFlat c1FailingMarkup).map (fun it => it.text)
      ≠ (c1FailingMarkup.chapters.map (fun ch => ch.content)).flatten.map (fun it => it.text) := by
  refine ⟨by with_unfolding_all decide, by with_unfolding_all decide,
    by with_unfolding_all decide⟩

/-- C2, counterexample: feeding a book with zero chapters makes the
orchestrator read `enhanced_chapters[0]`, whose `IndexError` is caught by
the outer handler, so the result is the fallback markup and its metadata
status IS `'fallback'` — refuting the claim that the status is not
`'fallback'`. -/
theorem C2_empty_book_cex :
    (analyze_and_enhance (fun _ => false) {} (.ok [])
      { title := "My Book", chapters := [] }).analysis_metadata.status
      = some "fallback"
    ∧ (analyze_and_enhance (fun _ => false) {} (.ok [])
      { title := "My Book", chapters := [] }).chapters = [] :=
  ⟨rfl, rfl⟩

/-- C2, amended: for a book with an empty chapter list,
`analyze_and_enhance` returns the fallback markup — empty chapters, the
input title preserved, theme `'general'` and metadata status `'fallback'`
(the `bookTitle` read from `enhanced_chapters[0]` raises `IndexError`,
which the outer `except` converts to `_create_fallback_markup`). -/
theorem C2_empty_book_fallback (coin : Nat → Bool) (sd : StructureData)
    (ci : Except Unit Profiles) (title : String) :
    analyze_and_enhance coin sd ci { title := title, chapters := [] }
      = create_fallback_markup { title := title, chapters := [] }
    ∧ (analyze_and_enhance coin sd ci { title := title, chapters := [] }).chapters = []
    ∧ (analyze_and_enhance coin sd ci
        { title := title, chapters := [] }).analysis_metadata.status = some "fallback"
    ∧ (analyze_and_enhance coin sd ci { title := title, chapters := [] }).bookTitle = title :=
  ⟨rfl, rfl, rfl, rfl⟩

/-- All-zero-vote input for claim C3: a book whose only text contains no
theme keyword. -/
def c3ZeroChapters : List ChapterD := [{ content := [{ text := "zzz" }] }]

/-- C3, counterexample: on a book with zero keyword hits for every theme,
`_determine_book_theme` returns `'historical'` (the first key of the
non-empty score dict under Python's first-maximum `max`), not `'general'`
— the `return 'general'` branch is unreachable. -/
theorem C3_zero_vote_cex :
    (theme_scores_of c3ZeroChapters).all (fun p => p.2 = 0) = true
    ∧ determine_book_theme c3ZeroChapters ≠ "general" := by
  refine ⟨by with_unfolding_all decide, by with_unfolding_all decide⟩

/-- C3, amended: the theme vote returns the first-declared theme attaining
the maximal keyword-hit count; in particular an all-zero vote yields
`'historical'` (the first-declared theme), never `'general'`. -/
theorem C3_theme_vote_amended (chapters : List ChapterD) :
    ∃ p ∈ theme_scores_of chapters,
      determine_book_theme chapters = p.1
      ∧ (∀ q ∈ theme_scores_of chapters, q.2 ≤ p.2)
      ∧ ((theme_scores_of chapters).all (fun r => r.2 = 0) = true →
          determine_book_theme chapters = "historical") := by
  cases hm : pyMaxByKey (fun p => p.2) (theme_scores_of chapters) with
  | none =>
    rw [pyMaxByKey_eq_none] at hm
    rw [theme_scores_of, theme_keyword_table] at hm
    simp at hm
  | some p =>
    refine ⟨p, pyMaxByKey_mem _ _ _ hm, ?_, pyMaxByKey_le _ _ _ hm, ?_⟩
    · unfold determine_book_theme
      rw [hm]
    · intro hz
      unfold determine_book_theme
      rw [theme_scores_of, theme_keyword_table] at hz ⊢
      simp only [List.map_cons, List.map_nil, List.all_cons, List.all_nil,
        Bool.and_eq_true, decide_eq_true_eq] at hz ⊢
      obtain ⟨h1, h2, h3, h4, h5, _⟩ := hz
      rw [pyMaxByKey_cons_stay]
      intro a ha
      simp only [List.mem_cons, List.mem_singleton] at ha
      rcases ha with rfl | rfl | rfl | rfl | ha
      · simp [h1, h2]
      · simp [h1, h3]
      · simp [h1, h4]
      · simp [h1, h5]
      · simp at ha

/-- Witness for C3's amended theorem: applying it to the concrete all-zero
book discharges the all-zero hypothesis and yields the `'historical'`
verdict. -/
theorem C3_theme_vote_witness : determine_book_theme c3ZeroChapters = "historical" := by
  obtain ⟨p, _, _, _, hzero⟩ := C3_theme_vote_amended c3ZeroChapters
  exact hzero (by with_unfolding_all decide)

/-- Concrete book for claim C4: one chapter with one plain segment. -/
def c4Book : ParsedBook :=
  { title := "T", chapters := [{ title := "c", content := [{ text := "hello" }] }] }

/-- C4, counterexample: when the character stage's inner analysis raises,
`analyze_character_arcs` catches the exception itself and returns the
narrator fallback profile map, so the pipeline continues normally and the
final metadata does NOT carry status `'fallback'` — refuting the claim
that an internal `CharacterAnalyzer` exception produces the fallback
markup. -/
theorem C4_char_error_cex :
    (analyze_and_enhance (fun _ => false) {} (.error ()) c4Book).analysis_metadata.status
      ≠ some "fallback" := by
  with_unfolding_all decide

lemma apply_intelligent_effects_ok_status {coin : Nat → Bool} {chs : List ChapterD}
    {profs : Profiles} {fm : Markup}
    (h : apply_intelligent_effects coin chs profs = .ok fm) :
    fm.analysis_metadata.status = none := by
  unfold apply_intelligent_effects at h
  cases chs with
  | nil => exact absurd h (by simp)
  | cons c0 rest =>
    dsimp only at h
    cases hd : analyze_effect_distribution
        (applyChaptersLoop coin profs (c0 :: rest) [] 0 0).2.1 with
    | error e => rw [hd] at h; exact absurd h (by simp)
    | ok u =>
      rw [hd] at h
      injection h with h
      rw [← h]

lemma analyzePipeline_ok_status {coin : Nat → Bool} {sd : StructureData}
    {ci : Except Unit Profiles} {book : ParsedBook} {m : SMarkup}
    (h : analyzePipeline coin sd ci book = .ok m) :
    m.analysis_metadata.status = none := by
  unfold analyzePipeline at h
  dsimp only at h
  have main : ∀ (profs : Profiles),
      (match apply_intelligent_effects coin (apply_emotional_scoring book sd profs) profs with
        | .error e => Except.error e
        | .ok fm => Except.ok (enforce_sparsity_rules (validate_all_effects fm))) = .ok m →
      m.analysis_metadata.status = none := by
    intro profs hh
    cases hmk : apply_intelligent_effects coin (apply_emotional_scoring book sd profs) profs with
    | error e => rw [hmk] at hh; exact absurd hh (by simp)
    | ok fm =>
      rw [hmk] at hh
      injection hh with hh
      subst hh
      rw [enforce_sparsity_rules_metadata, validate_all_effects_metadata]
      exact apply_intelligent_effects_ok_status hmk
  cases ci with
  | ok p => exact main p h
  | error u => exact main fallback_character_profiles h

/-- C4, amended: an exception inside `CharacterAnalyzer` never propagates —
`analyze_character_arcs` catches it at its own boundary and returns the
narrator fallback profiles, so the run is identical to a run whose
character analysis returned those profiles.  The orchestrator's fallback
markup (status `'fallback'`) is produced exactly when the remainder of the
pipeline fails on its own (empty chapter list, or `_analyze_effect_distribution`
dividing by a largest chapter index of `0`), never because of the
character error; on a successful pipeline run the status stays unset and
segments may still carry effects. -/
theorem C4_char_error_amended (coin : Nat → Bool) (sd : StructureData)
    (book : ParsedBook) :
    analyze_and_enhance coin sd (.error ()) book
      = analyze_and_enhance coin sd (.ok fallback_character_profiles) book
    ∧ ((analyze_and_enhance coin sd (.error ()) book).analysis_metadata.status
          = some "fallback"
        ↔ analyzePipeline coin sd (.error ()) book = .error ()) := by
  refine ⟨rfl, ?_⟩
  unfold analyze_and_enhance
  cases hp : analyzePipeline coin sd (.error ()) book with
  | ok m =>
    dsimp only
    rw [analyzePipeline_ok_status hp]
    simp
  | error e =>
    dsimp only
    cases e
    exact ⟨fun _ => rfl, fun _ => rfl⟩

/-- A non-empty book on which the pipeline itself fails after the
character error: its single quoted segment scores `33/50 ≥ 1/2`, receives
an effect in chapter index `0`, and `_analyze_effect_distribution` then
divides by the largest chapter index `0` (`ZeroDivisionError`), so the
outer handler produces the `'fallback'`-status markup. -/
def zdChapter : PChapter :=
  { title := "c", content := [{ text := "\"Lovejoygriefpanicragefury\"" }] }

/-- The one-chapter book built from `zdChapter`. -/
def zdBook : ParsedBook :=
  { title := "Z", chapters := [zdChapter] }

lemma zero_division_fallback_reachable :
    zdBook.chapters ≠ []
    ∧ (analyze_and_enhance (fun _ => true) {} (.error ()) zdBook).analysis_metadata.status
        = some "fallback" := by
  refine ⟨by with_unfolding_all decide, ?_⟩
  set_option maxRecDepth 10000 in with_unfolding_all decide

lemma forall₂_self_map {α β : Type} (R : α → β → Prop) (g : α → β) (l : List α)
    (h : ∀ a ∈ l, R a (g a)) : List.Forall₂ R l (l.map g) := by
  induction l with
  | nil => exact List.Forall₂.nil
  | cons x xs ih =>
    exact List.Forall₂.cons (h x (List.mem_cons_self x xs))
      (ih (fun a ha => h a (List.mem_cons_of_mem x ha)))

/-- C5: (i) the effect list returned by `select_appropriate_effects` always
has length at most 3; (ii) the quality controller maps each segment to a
segment with no more effects (position-wise, via `Forall₂`); (iii) every
segment of the sparsity controller's output is an input segment, either
unchanged or with its effects cleared — so no stage ever increases a
segment's effect count. -/
theorem C5_effect_count_bounds :
    (∀ (coin : Nat → Bool) (k : Nat) (it : Item) (profs : Profiles)
        (hist : List HistEntry) (theme : String),
      (select_appropriate_effects coin k it profs hist theme).1.length ≤ 3)
    ∧ (∀ m : Markup, List.Forall₂ (fun chIn chOut =>
        List.Forall₂ (fun a b => b.effects.length ≤ a.effects.length)
          chIn.content chOut.content)
        m.chapters (validate_all_effects m).chapters)
    ∧ (∀ m : Markup, ∀ o ∈ sparsityFlat m,
        ∃ i ∈ (m.chapters.map (fun ch => ch.content)).flatten,
          o = i ∨ o = { i with effects := [] }) := by
  refine ⟨select_appropriate_effects_le3, ?_, ?_⟩
  · intro m
    unfold validate_all_effects
    dsimp only
    apply forall₂_self_map
    intro ch _
    dsimp only
    apply forall₂_self_map
    intro it _
    have : (qualityItem it).effects = validate_content_effects it := rfl
    rw [this]
    exact length_validate_le it
  · intro m o ho
    rw [sparsityFlat_eq] at ho
    obtain ⟨a, ha, hR⟩ := forall₂_mem_right
      (apply_spacing_rules_prune (cappedFlat m) (-(minimum_effect_spacing : Int)) 0 0) o ho
    obtain ⟨chc, hchc, hain⟩ := List.mem_flatten.mp ha
    obtain ⟨ch, hchm, rfl⟩ := List.mem_map.mp hchc
    obtain ⟨i0, hi0, hcase⟩ := apply_chapter_sparsity_mem ch _ a hain
    refine ⟨i0, List.mem_flatten.mpr
      ⟨ch.content, List.mem_map.mpr ⟨ch, hchm, rfl⟩, hi0⟩, ?_⟩
    rcases hR with rfl | rfl <;> rcases hcase with rfl | rfl
    · exact Or.inl rfl
    · exact Or.inr rfl
    · exact Or.inr rfl
    · exact Or.inr rfl

/-- The single input segment of the C5 witness markup. -/
def c5InItem : Item :=
  { text := "t", emotional_score := 9/10,
    effects := [{ type := "sound", sound := some "heartbeat.mp3" }] }

/-- Concrete markup for the C5 witness: a single segment carrying one
effect; the chapter cap (limit 0) clears it. -/
def c5Markup : Markup :=
  { bookTitle := "B", theme := "g",
    chapters := [{ title := "c", content := [c5InItem] }],
    analysis_metadata := {} }

/-- The single output segment of `enforce_sparsity_rules` on `c5Markup`. -/
def c5OutItem : Item := { text := "t", emotional_score := 9/10, effects := [] }

/-- Witness for C5: the selector bound at a concrete call, and the sparsity
prune property applied to the concrete output segment of `c5Markup`. -/
theorem C5_effect_count_bounds_witness :
    (select_appropriate_effects (fun _ => true) 0 {} [] [] "general").1.length ≤ 3
    ∧ (∃ i ∈ (c5Markup.chapters.map (fun ch => ch.content)).flatten,
        c5OutItem = i ∨ c5OutItem = { i with effects := [] }) :=
  ⟨C5_effect_count_bounds.1 (fun _ => true) 0 {} [] [] "general",
   C5_effect_count_bounds.2.2 c5Markup c5OutItem (by
    have h : sparsityFlat c5Markup = [c5OutItem] := by with_unfolding_all decide
    rw [h]
    exact List.mem_singleton.mpr rfl)⟩

/-- C6: after `enforce_sparsity_rules`, in the book-flattened segment order
(i) any two effect-bearing segments are at least `minimum_effect_spacing`
(= 8) positions apart, (ii) no 3 consecutive effect-bearing segments occur
(the claim's `maximum_consecutive_effects` = 2 cap), and (iii) the global
pass only clears effects of later segments, in order: each output segment
equals the corresponding chapter-capped segment, possibly with its effects
emptied. -/
theorem C6_spacing_law (m : Markup) (p q : Nat) :
    (p < q → bearAt (sparsityFlat m) p → bearAt (sparsityFlat m) q →
      minimum_effect_spacing ≤ q - p)
    ∧ ¬ (bearAt (sparsityFlat m) p ∧ bearAt (sparsityFlat m) (p + 1)
        ∧ bearAt (sparsityFlat m) (p + 2))
    ∧ List.Forall₂ (fun a b => b = a ∨ b = { a with effects := [] })
        (cappedFlat m) (sparsityFlat m) := by
  have heq := sparsityFlat_eq m
  obtain ⟨hA, hB⟩ :=
    apply_spacing_rules_spec (cappedFlat m) (-(minimum_effect_spacing : Int)) 0 0
  refine ⟨?_, ?_, ?_⟩
  · intro hpq hp hq
    rw [heq] at hp hq
    exact hB p q hpq hp hq
  · rintro ⟨h1, h2, _⟩
    rw [heq] at h1 h2
    have h3 := hB p (p + 1) (by omega) h1 h2
    simp only [minimum_effect_spacing] at h3
    omega
  · rw [heq]
    exact apply_spacing_rules_prune _ _ _ _

/-- Effect used by the C6 witness book. -/
def c6Effect : Effect := { type := "text_style", style := some "calm_gentle" }

/-- A 14-segment `climax` chapter whose first segment bears an effect (the
chapter limit is `int(14*0.05*1.5) = 1`, so the effect survives capping). -/
def c6Chapter (tag : String) : ChapterD :=
  { title := tag, structural_role := some "climax",
    content := (List.range 14).map (fun i =>
      { text := tag ++ toString i, emotional_score := 1/10,
        effects := if i = 0 then [c6Effect] else [] }) }

/-- Two-chapter markup whose sparsity output bears effects at flattened
positions 0 and 14. -/
def c6Markup : Markup :=
  { bookTitle := "B", theme := "general", chapters := [c6Chapter "a", c6Chapter "b"],
    analysis_metadata := {} }

/-- Witness for C6: the spacing law applied at the two concrete
effect-bearing output positions 0 and 14 of `c6Markup`. -/
theorem C6_spacing_law_witness :
    bearAt (sparsityFlat c6Markup) 0 ∧ bearAt (sparsityFlat c6Markup) 14
    ∧ minimum_effect_spacing ≤ 14 - 0 :=
  ⟨by with_unfolding_all decide, by with_unfolding_all decide,
   (C6_spacing_law c6Markup 0 14).1 (by omega)
     (by with_unfolding_all decide) (by with_unfolding_all decide)⟩

/-- C7: `validate_all_effects` is idempotent on effects — running the
quality controller a second time on its own output leaves every segment's
effects list unchanged. -/
theorem C7_quality_idempotent (m : Markup) :
    ((validate_all_effects (validate_all_effects m)).chapters.map
      (fun ch => ch.content.map (fun it => it.effects)))
    = ((validate_all_effects m).chapters.map
      (fun ch => ch.content.map (fun it => it.effects))) := by
  simp only [validate_all_effects, List.map_map]
  apply List.map_congr_left
  intro ch _
  simp only [Function.comp_apply, List.map_map]
  apply List.map_congr_left
  intro it _
  simp only [Function.comp_apply]
  show (qualityItem (qualityItem it)).effects = (qualityItem it).effects
  show validate_content_effects (qualityItem it) = (qualityItem it).effects
  rw [validate_content_effects_idem]
  rfl

lemma select_mem_cases {coin : Nat → Bool} {k : Nat} {it : Item} {profs : Profiles}
    {hist : List HistEntry} {theme : String} {e : Effect}
    (he : e ∈ (select_appropriate_effects coin k it profs hist theme).1) :
    (∃ e', select_text_style_effect it.emotional_context profs it.text
        (filter_effects_by_theme (tierEffectNames (determine_effect_tier it.emotional_score))
          "text_style" theme) = some e' ∧ e = e')
    ∨ e ∈ select_word_effects it.emotional_context it.text
        (filter_effects_by_theme (tierEffectNames (determine_effect_tier it.emotional_score))
          "word_effect" theme)
    ∨ (∃ s, select_sound_effect it.emotional_context it.text
        (filter_effects_by_theme (tierEffectNames (determine_effect_tier it.emotional_score))
          "sound" theme) = some s ∧ e = s) := by
  unfold select_appropriate_effects at he
  rcases hg : should_apply_effects coin k it.emotional_score hist with ⟨b, k'⟩
  rw [hg] at he
  cases b
  · simp at he
  · dsimp only at he
    have hL : e ∈
        (match select_text_style_effect it.emotional_context profs it.text
            (filter_effects_by_theme (tierEffectNames (determine_effect_tier it.emotional_score))
              "text_style" theme) with
          | some e' => [e']
          | none => [])
        ++ select_word_effects it.emotional_context it.text
            (filter_effects_by_theme (tierEffectNames (determine_effect_tier it.emotional_score))
              "word_effect" theme)
        ++ (if 8/10 < it.emotional_score then
              match select_sound_effect it.emotional_context it.text
                  (filter_effects_by_theme (tierEffectNames (determine_effect_tier it.emotional_score))
                    "sound" theme) with
              | some e' => [e']
              | none => []
            else []) := by
      have step : ∀ (c : Prop) (inst : Decidable c) (L : List Effect),
          e ∈ (if c then L.take 3 else L) → e ∈ L := by
        intro c inst L h
        split at h
        · exact List.take_subset _ _ h
        · exact h
      exact step _ _ _ he
    rcases List.mem_append.mp hL with h12 | hc
    · rcases List.mem_append.mp h12 with ha | hb
      · left
        cases hst : select_text_style_effect it.emotional_context profs it.text
            (filter_effects_by_theme (tierEffectNames (determine_effect_tier it.emotional_score))
              "text_style" theme) with
        | none => rw [hst] at ha; simp at ha
        | some e' =>
          rw [hst] at ha
          exact ⟨e', rfl, by simpa using ha⟩
      · exact Or.inr (Or.inl hb)
    · right; right
      split at hc
      · cases hsd : select_sound_effect it.emotional_context it.text
            (filter_effects_by_theme (tierEffectNames (determine_effect_tier it.emotional_score))
              "sound" theme) with
        | none => rw [hsd] at hc; simp at hc
        | some s =>
          rw [hsd] at hc
          exact ⟨s, rfl, by simpa using hc⟩
      · simp at hc

/-- C8: (i) `_filter_effects_by_theme` admits an effect name only when the
book theme or `'general'` occurs in the effect's declared theme list
(default `['general']`); (ii) consequently a theme-restricted text style —
`fantasy_glow` (themes `['fantasy']`) or `noir_shadow` (themes `['noir']`)
— can appear in `select_appropriate_effects` output only when the book
theme equals its declared theme, regardless of the segment text. -/
theorem C8_theme_filtering :
    (∀ (names : List String) (ty theme nm : String),
      nm ∈ filter_effects_by_theme names ty theme →
      ∃ config, (effectLibraryOf ty).lookup nm = some config ∧
        (theme ∈ config.themes.getD ["general"]
          ∨ "general" ∈ config.themes.getD ["general"]))
    ∧ (∀ (coin : Nat → Bool) (k : Nat) (it : Item) (profs : Profiles)
        (hist : List HistEntry) (theme : String) (e : Effect),
        e ∈ (select_appropriate_effects coin k it profs hist theme).1 →
        (e.style = some "fantasy_glow" → theme = "fantasy")
        ∧ (e.style = some "noir_shadow" → theme = "noir")) := by
  refine ⟨fun _ _ _ _ h => filter_effects_by_theme_spec h, ?_⟩
  intro coin k it profs hist theme e he
  rcases select_mem_cases he with ⟨e', hst, rfl⟩ | hwd | ⟨s, hsd, rfl⟩
  · -- text-style branch
    obtain ⟨nm, config, hnm, _, hstyle, _⟩ := select_text_style_effect_spec hst
    constructor
    · intro hfg
      rw [hstyle] at hfg
      have hnmeq : nm = "fantasy_glow" := by simpa using hfg
      subst hnmeq
      obtain ⟨cfg, hlook2, hthm⟩ := filter_effects_by_theme_spec hnm
      have hv : (effectLibraryOf "text_style").lookup "fantasy_glow" =
          some { triggers := ["magic", "enchanted", "dragon", "mystic"],
                 intensity_threshold := 5/10,
                 character_types := ["wizard", "elf", "hero"],
                 contexts := ["magic", "fantasy", "enchanted"],
                 themes := some ["fantasy"] } := rfl
      rw [hv] at hlook2
      obtain rfl : cfg = _ := (Option.some.injEq _ _ ▸ hlook2).symm
      simp only [Option.getD_some] at hthm
      rcases hthm with hthm | hthm
      · simpa using hthm
      · simp at hthm
    · intro hfg
      rw [hstyle] at hfg
      have hnmeq : nm = "noir_shadow" := by simpa using hfg
      subst hnmeq
      obtain ⟨cfg, hlook2, hthm⟩ := filter_effects_by_theme_spec hnm
      have hv : (effectLibraryOf "text_style").lookup "noir_shadow" =
          some { triggers := ["shadow", "smoke", "dark", "mystery"],
                 intensity_threshold := 5/10,
                 character_types := ["detective", "antihero", "criminal"],
                 contexts := ["crime", "investigation", "night"],
                 themes := some ["noir"] } := rfl
      rw [hv] at hlook2
      obtain rfl : cfg = _ := (Option.some.injEq _ _ ▸ hlook2).symm
      simp only [Option.getD_some] at hthm
      rcases hthm with hthm | hthm
      · simpa using hthm
      · simp at hthm
  · -- word-effect branch: such effects carry no `style` key
    have hns := select_word_effects_no_style hwd
    constructor <;> intro hfg <;> rw [hns] at hfg <;> simp at hfg
  · -- sound branch: such effects carry no `style` key
    have hns := select_sound_effect_no_style hsd
    constructor <;> intro hfg <;> rw [hns] at hfg <;> simp at hfg

def c8Item : Item :=
  { type := "paragraph",
    text := "The wizard used magic to make the cave glow with mystic light.",
    emotional_score := 7/10,
    emotional_context := { primary_emotion := "wonder", intensity_level := "medium",
                           context_type := "magic" } }

def c8Effect : Effect :=
  { type := "text_style", style := some "fantasy_glow", intensity := 7/10 }

theorem C8_theme_filtering_witness :
    c8Effect ∈ (select_appropriate_effects (fun _ => true) 0 c8Item [] [] "fantasy").1
    ∧ "fantasy" = "fantasy" := by
  have hsel : (select_appropriate_effects (fun _ => true) 0 c8Item [] [] "fantasy").1 =
      [c8Effect,
       { type := "word_effect", effect := some "glow", word := some "light.",
         intensity := 4/5 },
       { type := "word_effect", effect := some "glow", word := some "magic",
         intensity := 4/5 }] := by
    set_option maxRecDepth 10000 in with_unfolding_all decide
  have hmem : c8Effect ∈ (select_appropriate_effects (fun _ => true) 0 c8Item [] [] "fantasy").1 := by
    rw [hsel]; exact List.mem_cons_self _ _
  exact ⟨hmem,
    (C8_theme_filtering.2 (fun _ => true) 0 c8Item [] [] "fantasy" c8Effect hmem).1 rfl⟩

/-- C9: on every successful run of `_apply_intelligent_effects`, the
recorded `total_effects_applied` equals the number of effect-bearing
segments of the whole book (one history entry per effect-bearing segment),
and that number never exceeds 3: starting from an empty history, the
recency gate of `_should_apply_effects` unconditionally denies every
segment once 3 history entries exist. -/
theorem C9_at_most_three_effect_segments (coin : Nat → Bool)
    (chs : List ChapterD) (profs : Profiles) (m : Markup)
    (h : apply_intelligent_effects coin chs profs = .ok m) :
    m.analysis_metadata.total_effects_applied
      = some (((m.chapters.map (·.content)).flatten).countP
          (fun it => !it.effects.isEmpty))
    ∧ ((m.chapters.map (·.content)).flatten).countP
        (fun it => !it.effects.isEmpty) ≤ 3 := by
  unfold apply_intelligent_effects at h
  cases chs with
  | nil => exact absurd h (by simp)
  | cons c0 rest =>
    dsimp only at h
    cases hd : analyze_effect_distribution
        (applyChaptersLoop coin profs (c0 :: rest) [] 0 0).2.1 with
    | error e => rw [hd] at h; exact absurd h (by simp)
    | ok u =>
    rw [hd] at h
    injection h with h
    subst h
    obtain ⟨h1, h2⟩ := applyChaptersLoop_hist coin profs (c0 :: rest) [] 0 0
    simp only [List.length_nil, Nat.zero_add] at h1
    have h2' : (applyChaptersLoop coin profs (c0 :: rest) [] 0 0).2.1.length ≤ 3 :=
      le_trans h2 (by simp)
    dsimp only
    exact ⟨congrArg some h1, by rw [← h1]; exact h2'⟩

theorem C9_at_most_three_effect_segments_witness :
    ∃ m, apply_intelligent_effects (fun _ => true)
        [{ title := "c", content := [] }] [] = .ok m
      ∧ (m.analysis_metadata.total_effects_applied
          = some (((m.chapters.map (·.content)).flatten).countP
              (fun it => !it.effects.isEmpty))
        ∧ ((m.chapters.map (·.content)).flatten).countP
            (fun it => !it.effects.isEmpty) ≤ 3) :=
  ⟨_, rfl, C9_at_most_three_effect_segments (fun _ => true)
    [{ title := "c", content := [] }] [] _ rfl⟩

lemma apply_emotional_scoring_bookTitle_none {book : ParsedBook} {sd : StructureData}
    {profs : Profiles} {ch : ChapterD} (h : ch ∈ apply_emotional_scoring book sd profs) :
    ch.bookTitle = none := by
  unfold apply_emotional_scoring at h
  obtain ⟨pc, _, rfl⟩ := List.mem_map.mp h
  rfl

lemma apply_intelligent_effects_ok_head {coin : Nat → Bool} {chs : List ChapterD}
    {profs : Profiles} {fm : Markup} (h : apply_intelligent_effects coin chs profs = .ok fm) :
    ∃ c0 rest, chs = c0 :: rest ∧ fm.bookTitle = c0.bookTitle.getD "Unknown" := by
  unfold apply_intelligent_effects at h
  cases chs with
  | nil => exact absurd h (by simp)
  | cons c0 rest =>
    dsimp only at h
    cases hd : analyze_effect_distribution
        (applyChaptersLoop coin profs (c0 :: rest) [] 0 0).2.1 with
    | error e => rw [hd] at h; exact absurd h (by simp)
    | ok u =>
      rw [hd] at h
      injection h with h
      exact ⟨c0, rest, rfl, by rw [← h]⟩

/-- C10: on every successful (non-fallback) run the returned markup's
`bookTitle` is the literal `"Unknown"` — `_apply_intelligent_effects` reads
`enhanced_chapters[0].get('bookTitle', 'Unknown')` and the chapter dicts
built by `_apply_emotional_scoring` from the parser's `title`/`content`
chapters never carry a `bookTitle` key — while the fallback markup carries
the input `ParsedBook`'s title. -/
theorem C10_bookTitle_unknown (coin : Nat → Bool) (sd : StructureData)
    (ci : Except Unit Profiles) (book : ParsedBook) (m : SMarkup)
    (h : analyzePipeline coin sd ci book = .ok m) :
    m.bookTitle = "Unknown"
    ∧ (create_fallback_markup book).bookTitle = book.title := by
  refine ⟨?_, rfl⟩
  unfold analyzePipeline at h
  dsimp only at h
  have main : ∀ (profs : Profiles),
      (match apply_intelligent_effects coin (apply_emotional_scoring book sd profs) profs with
        | .error e => Except.error e
        | .ok fm => Except.ok (enforce_sparsity_rules (validate_all_effects fm))) = .ok m →
      m.bookTitle = "Unknown" := by
    intro profs hh
    cases hmk : apply_intelligent_effects coin (apply_emotional_scoring book sd profs) profs with
    | error e => rw [hmk] at hh; exact absurd hh (by simp)
    | ok fm =>
      rw [hmk] at hh
      injection hh with hh
      subst hh
      rw [enforce_sparsity_rules_bookTitle, validate_all_effects_bookTitle]
      obtain ⟨c0, rest, hchs, hbt⟩ := apply_intelligent_effects_ok_head hmk
      have hnone : c0.bookTitle = none :=
        apply_emotional_scoring_bookTitle_none (hchs ▸ List.mem_cons_self c0 rest)
      rw [hbt, hnone]
      rfl
  cases ci with
  | ok p => exact main p h
  | error u => exact main fallback_character_profiles h

def c10Book : ParsedBook :=
  { title := "T", chapters := [{ title := "c", content := [] }] }

theorem C10_bookTitle_unknown_witness :
    ∃ m, analyzePipeline (fun _ => true) {} (.ok []) c10Book = .ok m
      ∧ (m.bookTitle = "Unknown"
        ∧ (create_fallback_markup c10Book).bookTitle = c10Book.title) :=
  ⟨_, rfl, C10_bookTitle_unknown (fun _ => true) {} (.ok []) c10Book _ rfl⟩
